import Mathlib

/-!
Verification of the comment-toggling core of the `custom-comment` editor
plugin.  The development shallowly embeds the TypeScript source
(`src/main.ts`, middle revision, plus the helpers in `src/utils/`) over
`List Char` strings and a line-based editor state, and settles the frozen
claims about the specification.

Conventions:
* a JS string is modelled as `Str := List Char`;
* JS `s.indexOf`, `s.slice`, `s.substr`, `s.startsWith`, `s.endsWith`,
  `s.includes`, `s.trim` are modelled by `jsIndexOf`, `jsSlice`, `jsSubstr`,
  `jsStartsWith`, `jsEndsWith`, `jsIncludes`, `jsTrim`;
* the editor document is the list of its lines (no line contains a newline
  character), and a cursor/selection is an anchor/head pair of positions.
-/

namespace CustomComment

abbrev Str := List Char

/-- JS whitespace class (the characters relevant to `\s` and `String.trim`
that can occur in marker strings and documents). -/
def isWs (c : Char) : Bool :=
  c = ' ' || c = '\t' || c = '\n' || c = '\r' || c = '\x0b' || c = '\x0c'

/-- JS `String.prototype.trim`: drop whitespace from both ends. -/
def jsTrim (s : Str) : Str :=
  ((s.dropWhile isWs).reverse.dropWhile isWs).reverse

/-- One pass of `replace(/\s+/g, ' ')`: each maximal whitespace run becomes a
single space.  `prevWs` records whether the previously emitted character
closed a whitespace run. -/
def collapseWsAux : Bool → Str → Str
  | _, [] => []
  | prevWs, c :: rest =>
    if isWs c then
      if prevWs then collapseWsAux true rest
      else ' ' :: collapseWsAux true rest
    else c :: collapseWsAux false rest

/-- `str.replace(/\s+/g, ' ')` from `src/utils/getSelectionRange.ts`. -/
def collapseWs (s : Str) : Str := collapseWsAux false s

/-- `normalize` from `src/utils/getSelectionRange.ts`:
`str.replace(/\s+/g, ' ').trim()`. -/
def normalize (s : Str) : Str := jsTrim (collapseWs s)

/-- Canonical whitespace shape produced by `collapseWs`: every whitespace
character is a plain space and no two whitespace characters are adjacent. -/
def goodA (s : Str) : Prop :=
  (∀ c ∈ s, isWs c = true → c = ' ') ∧
    s.Chain' (fun a b => isWs a = false ∨ isWs b = false)

theorem collapseWsAux_true_head (s : Str) :
    ∀ c r, collapseWsAux true s = c :: r → isWs c = false := by
  induction s with
  | nil => intro c r h; simp [collapseWsAux] at h
  | cons a rest ih =>
    intro c r h
    by_cases ha : isWs a = true
    · rw [show collapseWsAux true (a :: rest) = collapseWsAux true rest by
        simp [collapseWsAux, ha]] at h
      exact ih c r h
    · rw [show collapseWsAux true (a :: rest) = a :: collapseWsAux false rest by
        simp [collapseWsAux]; intro hw; exact absurd hw ha] at h
      cases h; simpa using ha

theorem collapseWsAux_mem (s : Str) :
    ∀ b c, c ∈ collapseWsAux b s → isWs c = true → c = ' ' := by
  induction s with
  | nil => intro b c h; simp [collapseWsAux] at h
  | cons a rest ih =>
    intro b c h hw
    by_cases ha : isWs a = true
    · cases b with
      | true =>
        rw [show collapseWsAux true (a :: rest) = collapseWsAux true rest by
          simp [collapseWsAux, ha]] at h
        exact ih true c h hw
      | false =>
        rw [show collapseWsAux false (a :: rest) = ' ' :: collapseWsAux true rest by
          simp [collapseWsAux, ha]] at h
        rcases List.mem_cons.mp h with h | h
        · exact h
        · exact ih true c h hw
    · rw [show collapseWsAux b (a :: rest) = a :: collapseWsAux false rest by
        cases b <;> simp [collapseWsAux] <;> intro hx <;> exact absurd hx ha] at h
      rcases List.mem_cons.mp h with h | h
      · subst h; exact absurd hw ha
      · exact ih false c h hw

theorem collapseWsAux_chain (s : Str) :
    ∀ b, (collapseWsAux b s).Chain'
      (fun a b => isWs a = false ∨ isWs b = false) := by
  induction s with
  | nil => intro b; simp [collapseWsAux]
  | cons a rest ih =>
    intro b
    by_cases ha : isWs a = true
    · cases b with
      | true =>
        rw [show collapseWsAux true (a :: rest) = collapseWsAux true rest by
          simp [collapseWsAux, ha]]
        exact ih true
      | false =>
        rw [show collapseWsAux false (a :: rest) = ' ' :: collapseWsAux true rest by
          simp [collapseWsAux, ha]]
        refine List.chain'_cons'.mpr ⟨?_, ih true⟩
        intro y hy
        right
        rcases hx : collapseWsAux true rest with _ | ⟨c, r⟩
        · rw [hx] at hy; simp at hy
        · rw [hx] at hy
          simp at hy
          subst hy
          exact collapseWsAux_true_head rest c r hx
    · rw [show collapseWsAux b (a :: rest) = a :: collapseWsAux false rest by
        cases b <;> simp [collapseWsAux] <;> intro hx <;> exact absurd hx ha]
      refine List.chain'_cons'.mpr ⟨?_, ih false⟩
      intro y _
      left
      simpa using ha

theorem goodA_collapseWs (s : Str) : goodA (collapseWs s) :=
  ⟨fun c h => collapseWsAux_mem s false c h, collapseWsAux_chain s false⟩

theorem collapseWsAux_fixed (s : Str) (h : goodA s) :
    ∀ b, (b = true → ∀ c r, s = c :: r → isWs c = false) →
      collapseWsAux b s = s := by
  induction s with
  | nil => intro b _; cases b <;> rfl
  | cons a rest ih =>
    intro b hb
    have hgr : goodA rest := ⟨fun c hc => h.1 c (List.mem_cons_of_mem a hc),
      (List.chain'_cons'.mp h.2).2⟩
    by_cases ha : isWs a = true
    · have hb' : b = false := by
        cases b with
        | false => rfl
        | true => exact absurd (hb rfl a rest rfl) (by simpa using ha)
      subst hb'
      have haSp : a = ' ' := h.1 a (List.mem_cons_self a rest) ha
      have hhd : ∀ c r, rest = c :: r → isWs c = false := by
        intro c r hr
        have := (List.chain'_cons'.mp h.2).1 c (by rw [hr]; rfl)
        rcases this with h1 | h1
        · exact absurd ha (by simp [h1])
        · exact h1
      rw [show collapseWsAux false (a :: rest) = ' ' :: collapseWsAux true rest by
        simp [collapseWsAux, ha]]
      rw [ih hgr true (fun _ => hhd), haSp]
    · rw [show collapseWsAux b (a :: rest) = a :: collapseWsAux false rest by
        cases b <;> simp [collapseWsAux] <;> intro hx <;> exact absurd hx ha]
      rw [ih hgr false (by intro h'; cases h')]

theorem goodA_isInf {l l' : Str} (h : goodA l) (hinf : l' <:+: l) :
    goodA l' := by
  refine ⟨fun c hc => h.1 c (hinf.sublist.subset hc), ?_⟩
  exact List.Chain'.infix h.2 hinf

theorem jsTrim_isInf (s : Str) : jsTrim s <:+: s := by
  unfold jsTrim
  have h1 : s.dropWhile isWs <:+ s := List.dropWhile_suffix isWs
  have h2 : (s.dropWhile isWs).reverse.dropWhile isWs <:+
      (s.dropWhile isWs).reverse := List.dropWhile_suffix isWs
  have h3 : ((s.dropWhile isWs).reverse.dropWhile isWs).reverse <+:
      s.dropWhile isWs := by
    rw [← List.reverse_suffix]
    simpa using h2
  exact h3.isInfix.trans h1.isInfix

theorem dropWhile_eq_self_of_head {p : Char → Bool} {s : Str}
    (h : ∀ (hne : s ≠ []), p (s.head hne) = false) :
    s.dropWhile p = s := by
  cases s with
  | nil => rfl
  | cons c r =>
    have := h (by simp)
    simp at this
    simp [List.dropWhile_cons, this]

theorem jsTrim_eq_self {s : Str}
    (hh : ∀ (hne : s ≠ []), isWs (s.head hne) = false)
    (hl : ∀ (hne : s ≠ []), isWs (s.getLast hne) = false) :
    jsTrim s = s := by
  unfold jsTrim
  rw [dropWhile_eq_self_of_head hh]
  rw [dropWhile_eq_self_of_head (by
    intro hne
    rw [List.head_reverse]
    exact hl (by simpa using hne))]
  exact List.reverse_reverse s

theorem jsTrim_headq_nonWs (s : Str) :
    ∀ c, (jsTrim s).head? = some c → isWs c = false := by
  intro c hc
  unfold jsTrim at hc
  set z := s.dropWhile isWs with hz
  set u := z.reverse.dropWhile isWs with hu
  have hpre : u.reverse <+: z := by
    rw [← List.reverse_suffix]
    have hd : z.reverse.dropWhile isWs <:+ z.reverse :=
      List.dropWhile_suffix isWs
    simpa [hu] using hd
  rcases hpre with ⟨t, ht⟩
  cases hur : u.reverse with
  | nil => rw [hur] at hc; simp at hc
  | cons c' tr =>
    rw [hur] at hc
    have hcc : c' = c := by simpa using hc
    subst hcc
    have hzc : z = c' :: (tr ++ t) := by rw [← ht, hur]; rfl
    have hzne : z ≠ [] := by rw [hzc]; simp
    have h1 : isWs (z.head hzne) = false := List.head_dropWhile_not isWs s hzne
    have h2 : z.head hzne = c' := by
      have h3 : z.head? = some (z.head hzne) := List.head?_eq_head hzne
      have h4 : z.head? = some c' := by rw [hzc]; rfl
      rw [h3] at h4
      exact Option.some_inj.mp h4
    rwa [h2] at h1

theorem jsTrim_head_nonWs (s : Str) :
    ∀ (hne : jsTrim s ≠ []), isWs ((jsTrim s).head hne) = false := by
  intro hne
  exact jsTrim_headq_nonWs s _ (List.head?_eq_head hne)

theorem jsTrim_getLast_nonWs (s : Str) :
    ∀ (hne : jsTrim s ≠ []), isWs ((jsTrim s).getLast hne) = false := by
  intro hne
  unfold jsTrim at hne ⊢
  rw [List.getLast_reverse]
  exact List.head_dropWhile_not isWs _ _

/-- CLAIM C9 — the marker normalizer from `src/utils/getSelectionRange.ts` is
idempotent: `normalize(normalize(s)) == normalize(s)` for every string `s`,
where `normalize` replaces each maximal whitespace run by one space and trims
the ends. -/
theorem normalize_idempotent (s : Str) : normalize (normalize s) = normalize s := by
  unfold normalize
  have hg : goodA (jsTrim (collapseWs s)) :=
    goodA_isInf (goodA_collapseWs s) (jsTrim_isInf (collapseWs s))
  rw [show collapseWs (jsTrim (collapseWs s)) = jsTrim (collapseWs s) from
    collapseWsAux_fixed _ hg false (by intro h; cases h)]
  exact jsTrim_eq_self (jsTrim_head_nonWs _) (jsTrim_getLast_nonWs _)

/-! ## JS string primitives -/

/-- `pat` occurs in `s` at index `i`. -/
def matchAt (s : Str) (i : Nat) (pat : Str) : Bool :=
  pat.isPrefixOf (s.drop i)

/-- Index of the first occurrence of `pat` in `s`, if any. -/
def firstMatch (pat : Str) : Str → Option Nat
  | [] => if pat.isEmpty then some 0 else none
  | c :: rest =>
    if pat.isPrefixOf (c :: rest) then some 0
    else (firstMatch pat rest).map (· + 1)

/-- JS `s.indexOf(pat)`. -/
def jsIndexOf (s pat : Str) : Int :=
  match firstMatch pat s with
  | some i => (i : Int)
  | none => -1

/-- JS `s.indexOf(pat, fr)`; a negative `fr` behaves as `0`, one past the end
as `s.length`. -/
def jsIndexOfFrom (s pat : Str) (fr : Int) : Int :=
  let f := min (max fr 0).toNat s.length
  match firstMatch pat (s.drop f) with
  | some i => ((f + i : Nat) : Int)
  | none => -1

/-- JS `s.includes(pat)`. -/
def jsIncludes (s pat : Str) : Bool :=
  (firstMatch pat s).isSome

/-- JS `s.startsWith(pat)`. -/
def jsStartsWith (s pat : Str) : Bool := pat.isPrefixOf s

/-- JS `s.endsWith(pat)`. -/
def jsEndsWith (s pat : Str) : Bool := pat.isSuffixOf s

/-- JS `s.substr(i, len)`. -/
def jsSubstr (s : Str) (i len : Nat) : Str := (s.drop i).take len

/-- Resolve a JS slice index: negative counts from the end, then clamps. -/
def jsSliceIdx (n : Nat) (x : Int) : Nat :=
  (min ((if x < 0 then x + n else x).toNat) n)

/-- JS `s.slice(a, b)`. -/
def jsSlice (s : Str) (a b : Int) : Str :=
  (s.take (jsSliceIdx s.length b)).drop (jsSliceIdx s.length a)

/-- JS `s.slice(a)`. -/
def jsSliceFrom (s : Str) (a : Int) : Str := jsSlice s a s.length

theorem matchAt_isInf {s : Str} {i : Nat} {pat : Str}
    (h : matchAt s i pat = true) : pat <:+: s := by
  unfold matchAt at h
  have hp : pat <+: s.drop i := List.isPrefixOf_iff_prefix.mp h
  exact hp.isInfix.trans (List.drop_suffix i s).isInfix

theorem infix_matchAt {s pat : Str} (h : pat <:+: s) :
    ∃ i, matchAt s i pat = true := by
  rcases h with ⟨u, v, huv⟩
  refine ⟨u.length, ?_⟩
  unfold matchAt
  rw [← huv]
  rw [show u ++ pat ++ v = u ++ (pat ++ v) by simp]
  rw [List.drop_left]
  exact List.isPrefixOf_iff_prefix.mpr ⟨v, rfl⟩

theorem firstMatch_some {pat : Str} :
    ∀ {s : Str} {i : Nat}, firstMatch pat s = some i →
      matchAt s i pat = true ∧ ∀ j, j < i → matchAt s j pat = false := by
  intro s
  induction s with
  | nil =>
    intro i h
    unfold firstMatch at h
    by_cases hp : pat.isEmpty
    · simp [hp] at h
      subst h
      constructor
      · unfold matchAt
        simp [List.isEmpty_iff.mp hp, List.isPrefixOf]
      · intro j hj; omega
    · simp [hp] at h
  | cons c rest ih =>
    intro i h
    unfold firstMatch at h
    by_cases hp : pat.isPrefixOf (c :: rest) = true
    · simp [hp] at h
      subst h
      exact ⟨by unfold matchAt; simpa using hp, by intro j hj; omega⟩
    · simp [hp] at h
      rcases h with ⟨i', hi', rfl⟩
      rcases ih hi' with ⟨h1, h2⟩
      constructor
      · unfold matchAt at h1 ⊢
        simpa using h1
      · intro j hj
        cases j with
        | zero =>
          unfold matchAt
          simp only [List.drop_zero]
          cases hb : pat.isPrefixOf (c :: rest) with
          | false => rfl
          | true => exact absurd hb hp
        | succ j' =>
          have := h2 j' (by omega)
          unfold matchAt at this ⊢
          simpa using this

theorem firstMatch_none {pat : Str} :
    ∀ {s : Str}, firstMatch pat s = none → ∀ i, matchAt s i pat = false := by
  intro s
  induction s with
  | nil =>
    intro h i
    unfold firstMatch at h
    by_cases hp : pat.isEmpty
    · simp [hp] at h
    · unfold matchAt
      simp only [List.drop_nil]
      cases hpat : pat with
      | nil => rw [hpat] at hp; simp [List.isEmpty] at hp
      | cons a b => simp [List.isPrefixOf]
  | cons c rest ih =>
    intro h i
    unfold firstMatch at h
    by_cases hp : pat.isPrefixOf (c :: rest) = true
    · simp [hp] at h
    · simp [hp] at h
      cases i with
      | zero =>
        unfold matchAt
        simp only [List.drop_zero]
        cases hb : pat.isPrefixOf (c :: rest) with
        | false => rfl
        | true => exact absurd hb hp
      | succ i' =>
        have := ih h i'
        unfold matchAt at this ⊢
        simpa using this

theorem jsIncludes_false_not_isInf {s pat : Str}
    (h : jsIncludes s pat = false) : ¬ pat <:+: s := by
  intro hinf
  rcases infix_matchAt hinf with ⟨i, hi⟩
  unfold jsIncludes at h
  cases hfm : firstMatch pat s with
  | some j => rw [hfm] at h; simp at h
  | none => rw [firstMatch_none hfm i] at hi; cases hi

theorem jsIndexOf_nonneg_of_some {s pat : Str} {i : Nat}
    (h : firstMatch pat s = some i) : jsIndexOf s pat = (i : Int) := by
  unfold jsIndexOf
  rw [h]

/-! ## `findMarkerInText` (`src/utils/findMarkerInText.ts`) -/

/-- Result record of `findMarkerInText`; the source's `partial` field is
called `part` here. -/
structure FindMarkerResult where
  idx : Int
  full : Bool
  part : Option Str := none
  deriving Repr, DecidableEq

/-- The partial-marker loop of `findMarkerInText`
(`for (let len = marker.length - 1; len > 0; len--)`), with `n` the current
value of `len`. -/
def findMarkerLoop (marker text : Str) : Nat → FindMarkerResult
  | 0 => ⟨-1, false, none⟩
  | n + 1 =>
    let p := jsSlice marker 0 ((n + 1 : Nat) : Int)
    let sfx := jsSliceFrom marker (-((n + 1 : Nat) : Int))
    if jsIncludes text p then ⟨jsIndexOf text p, false, some p⟩
    else if jsIncludes text sfx then ⟨jsIndexOf text sfx, false, some sfx⟩
    else findMarkerLoop marker text n

/-- `findMarkerInText` from `src/utils/findMarkerInText.ts`. -/
def findMarkerInText (marker text : Str) : FindMarkerResult :=
  let idx := jsIndexOf text marker
  if idx ≠ -1 then ⟨idx, true, none⟩
  else findMarkerLoop marker text (marker.length - 1)

theorem jsSlice_zero_take (s : Str) (k : Nat) :
    jsSlice s 0 (k : Int) = s.take k := by
  unfold jsSlice jsSliceIdx
  rw [if_neg (by omega), if_neg (by omega)]
  rw [show ((0 : Int).toNat) = 0 from rfl, show ((k : Int).toNat) = k by omega]
  rw [Nat.zero_min, List.drop_zero]
  rcases le_or_lt k s.length with h | h
  · rw [Nat.min_eq_left h]
  · rw [Nat.min_eq_right (by omega), List.take_length,
      List.take_of_length_le (by omega)]

theorem jsSliceFrom_neg_drop (s : Str) (k : Nat) (hk0 : 1 ≤ k)
    (hk : k ≤ s.length) :
    jsSliceFrom s (-(k : Int)) = s.drop (s.length - k) := by
  unfold jsSliceFrom jsSlice jsSliceIdx
  rw [if_pos (by omega), if_neg (by omega)]
  rw [show (-(k : Int) + s.length).toNat = s.length - k by omega]
  rw [show ((s.length : Int).toNat) = s.length by omega]
  rw [Nat.min_eq_left (by omega), Nat.min_self, List.take_length]


theorem jsIncludes_true_indexOf {s pat : Str} (h : jsIncludes s pat = true) :
    ∃ i : Nat, jsIndexOf s pat = (i : Int) := by
  unfold jsIncludes at h
  cases hfm : firstMatch pat s with
  | some i => exact ⟨i, by unfold jsIndexOf; rw [hfm]⟩
  | none => rw [hfm] at h; simp at h

theorem findMarkerLoop_neg {marker text : Str} :
    ∀ n, (findMarkerLoop marker text n).idx = -1 →
      ∀ k, 1 ≤ k → k ≤ n →
        jsIncludes text (jsSlice marker 0 (k : Int)) = false ∧
        jsIncludes text (jsSliceFrom marker (-(k : Int))) = false := by
  intro n
  induction n with
  | zero => intro _ k hk1 hk2; omega
  | succ m ih =>
    intro h k hk1 hk2
    unfold findMarkerLoop at h
    by_cases h1 : jsIncludes text (jsSlice marker 0 ((m + 1 : Nat) : Int)) = true
    · rw [if_pos h1] at h
      simp only at h
      rcases jsIncludes_true_indexOf h1 with ⟨i, hi⟩
      rw [hi] at h
      omega
    · rw [if_neg h1] at h
      by_cases h2 :
          jsIncludes text (jsSliceFrom marker (-((m + 1 : Nat) : Int))) = true
      · rw [if_pos h2] at h
        simp only at h
        rcases jsIncludes_true_indexOf h2 with ⟨i, hi⟩
        rw [hi] at h
        omega
      · rw [if_neg h2] at h
        rcases Nat.lt_or_ge k (m + 1) with hk | hk
        · exact ih h k hk1 (by omega)
        · have hkm : k = m + 1 := by omega
          subst hkm
          exact ⟨Bool.not_eq_true _ ▸ h1, Bool.not_eq_true _ ▸ h2⟩

/-- CLAIM C10 — postcondition of `findMarkerInText` (implicit in
`src/utils/findMarkerInText.ts`): if `marker` occurs as a substring of
`text`, the function returns the index of the first occurrence with
`full = true`; and it returns `idx = -1` only when no non-empty prefix of
`marker` and no non-empty suffix of `marker` occurs anywhere in `text`. -/
theorem findMarkerInText_postcondition (marker text : Str) :
    (marker <:+: text →
      (findMarkerInText marker text).full = true ∧
      ∃ i : Nat, (findMarkerInText marker text).idx = (i : Int) ∧
        matchAt text i marker = true ∧
        ∀ j, j < i → matchAt text j marker = false) ∧
    ((findMarkerInText marker text).idx = -1 →
      ∀ k, 1 ≤ k → k ≤ marker.length →
        ¬ (marker.take k <:+: text) ∧
        ¬ (marker.drop (marker.length - k) <:+: text)) := by
  constructor
  · intro hinf
    cases hfm : firstMatch marker text with
    | none =>
      rcases infix_matchAt hinf with ⟨i, hi⟩
      rw [firstMatch_none hfm i] at hi
      cases hi
    | some i =>
      have hidx : jsIndexOf text marker = (i : Int) := by
        unfold jsIndexOf; rw [hfm]
      have hres : findMarkerInText marker text = ⟨(i : Int), true, none⟩ := by
        unfold findMarkerInText
        rw [hidx, if_pos (by omega)]
      rw [hres]
      rcases firstMatch_some hfm with ⟨h1, h2⟩
      exact ⟨rfl, i, rfl, h1, h2⟩
  · intro hmin k hk1 hk2
    have hfm : firstMatch marker text = none := by
      cases hfm : firstMatch marker text with
      | none => rfl
      | some i =>
        have hidx : jsIndexOf text marker = (i : Int) := by
          unfold jsIndexOf; rw [hfm]
        have : findMarkerInText marker text = ⟨(i : Int), true, none⟩ := by
          unfold findMarkerInText
          rw [hidx, if_pos (by omega)]
        rw [this] at hmin
        simp only at hmin
        omega
    have hloop : findMarkerInText marker text =
        findMarkerLoop marker text (marker.length - 1) := by
      unfold findMarkerInText
      rw [show jsIndexOf text marker = -1 by unfold jsIndexOf; rw [hfm]]
      simp
    rw [hloop] at hmin
    have hnf : ¬ (marker <:+: text) := by
      intro hinf
      rcases infix_matchAt hinf with ⟨i, hi⟩
      rw [firstMatch_none hfm i] at hi
      cases hi
    rcases Nat.lt_or_ge k marker.length with hk | hk
    · rcases findMarkerLoop_neg (marker.length - 1) hmin k hk1 (by omega)
        with ⟨hp, hs⟩
      rw [jsSlice_zero_take] at hp
      rw [jsSliceFrom_neg_drop marker k hk1 (by omega)] at hs
      exact ⟨jsIncludes_false_not_isInf hp, jsIncludes_false_not_isInf hs⟩
    · have hkl : k = marker.length := by omega
      subst hkl
      constructor
      · rw [List.take_of_length_le (le_refl _)]
        exact hnf
      · rw [Nat.sub_self, List.drop_zero]
        exact hnf

/-- Witness for C10: `findMarkerInText` applied to the marker `%%` in
`a%%b` (occurrence present) and in `ab` (returns `-1`). -/
theorem findMarkerInText_postcondition_witness :
    (("%%".toList <:+: "a%%b".toList) ∧
      ((findMarkerInText ("%%".toList) ("a%%b".toList)).full = true ∧
        ∃ i : Nat,
          (findMarkerInText ("%%".toList) ("a%%b".toList)).idx = (i : Int) ∧
          matchAt ("a%%b".toList) i ("%%".toList) = true ∧
          ∀ j, j < i → matchAt ("a%%b".toList) j ("%%".toList) = false)) ∧
    ((findMarkerInText ("%%".toList) ("ab".toList)).idx = -1 ∧
      ∀ k, 1 ≤ k → k ≤ ("%%".toList).length →
        ¬ (("%%".toList).take k <:+: "ab".toList) ∧
        ¬ (("%%".toList).drop (("%%".toList).length - k) <:+: "ab".toList)) :=
  ⟨⟨by decide, (findMarkerInText_postcondition ("%%".toList) ("a%%b".toList)).1
      (by decide)⟩,
   ⟨by decide, (findMarkerInText_postcondition ("%%".toList) ("ab".toList)).2
      (by decide)⟩⟩

/-! ## Word bounds (`getWordBounds`, `src/unnamed/part_002` / `main.ts`) -/

/-- Word characters of the source regex `[\p{L}\p{N}_]` (letters, digits,
underscore); the embedding uses the alphanumeric class on which the claims
are decided. -/
def isWordChar (c : Char) : Bool := c.isAlphanum || c = '_'

/-- One left-to-right pass over the line collecting the maximal word-character
runs `(start, stop)`, mirroring the global-regex `exec` loop of
`getWordBounds`.  `i` is the index of the head of the remaining list and
`cur` the start of the currently open run, if any. -/
def wordRunsAux : Str → Nat → Option Nat → List (Nat × Nat)
  | [], _, none => []
  | [], i, some s => [(s, i)]
  | c :: rest, i, none =>
    if isWordChar c then wordRunsAux rest (i + 1) (some i)
    else wordRunsAux rest (i + 1) none
  | c :: rest, i, some s =>
    if isWordChar c then wordRunsAux rest (i + 1) (some s)
    else (s, i) :: wordRunsAux rest (i + 1) none

/-- All maximal word-character runs of a line, in order. -/
def wordRuns (line : Str) : List (Nat × Nat) := wordRunsAux line 0 none

/-- `getWordBounds(line, ch)`: the first maximal run `(start, end)` with
`start ≤ ch ≤ end` (the regex-match loop of the source). -/
def getWordBounds (line : Str) (ch : Nat) : Option (Nat × Nat) :=
  (wordRuns line).find? (fun b => decide (b.1 ≤ ch) && decide (ch ≤ b.2))

/-- Specification-side notion (spec §4.2): `[s, e)` is a maximal run of word
characters of `line`. -/
def isWordRun (line : Str) (s e : Nat) : Prop :=
  s < e ∧ e ≤ line.length ∧
  (∀ k, s ≤ k → k < e → isWordChar (line.getD k ' ') = true) ∧
  (s = 0 ∨ isWordChar (line.getD (s - 1) ' ') = false) ∧
  (e = line.length ∨ isWordChar (line.getD e ' ') = false)

theorem drop_cons_next {L : Str} {i : Nat} {c : Char} {r : Str}
    (h : L.drop i = c :: r) : L.drop (i + 1) = r := by
  rw [← List.drop_drop 1 i L, h]
  rfl

theorem drop_cons_getD {L : Str} {i : Nat} {c : Char} {r : Str}
    (h : L.drop i = c :: r) : L.getD i ' ' = c := by
  rw [List.getD_eq_getElem?_getD]
  have h2 : (L.drop i)[0]? = L[i + 0]? := List.getElem?_drop L i 0
  rw [h] at h2
  simp only [List.getElem?_cons_zero, Nat.add_zero] at h2
  rw [← h2]
  rfl

/-- The maximal-run end is determined by its start. -/
theorem isWordRun_end_unique {L : Str} {s e e' : Nat}
    (h : isWordRun L s e) (h' : isWordRun L s e') : e = e' := by
  rcases h with ⟨h1, h2, h3, _, h5⟩
  rcases h' with ⟨h1', h2', h3', _, h5'⟩
  by_contra hne
  rcases Nat.lt_or_ge e e' with hlt | hge
  · rcases h5 with h5 | h5
    · omega
    · rw [h3' e (by omega) (by omega)] at h5
      cases h5
  · have hlt : e' < e := by omega
    rcases h5' with h5' | h5'
    · omega
    · rw [h3 e' (by omega) (by omega)] at h5'
      cases h5'

/-- Two maximal runs whose closed intervals share a point coincide. -/
theorem isWordRun_unique {L : Str} {s e s' e' ch : Nat}
    (h : isWordRun L s e) (h' : isWordRun L s' e')
    (hc : s ≤ ch ∧ ch ≤ e) (hc' : s' ≤ ch ∧ ch ≤ e') :
    s = s' ∧ e = e' := by
  have hss : s = s' := by
    by_contra hne
    rcases Nat.lt_or_ge s s' with hlt | hge
    · rcases h'.2.2.2.1 with h4 | h4
      · omega
      · have : s' - 1 < e := by
          by_contra hge2
          omega
        rw [h.2.2.1 (s' - 1) (by omega) this] at h4
        cases h4
    · have hlt : s' < s := by omega
      rcases h.2.2.2.1 with h4 | h4
      · omega
      · have : s - 1 < e' := by
          by_contra hge2
          omega
        rw [h'.2.2.1 (s - 1) (by omega) this] at h4
        cases h4
  subst hss
  exact ⟨rfl, isWordRun_end_unique h h'⟩

theorem wordRunsAux_iff (L : Str) :
    ∀ (l : Str) (i : Nat), l = L.drop i → i ≤ L.length →
    ∀ (cur : Option Nat),
      (match cur with
       | none => i = 0 ∨ isWordChar (L.getD (i - 1) ' ') = false
       | some s0 => s0 < i ∧
           (∀ k, s0 ≤ k → k < i → isWordChar (L.getD k ' ') = true) ∧
           (s0 = 0 ∨ isWordChar (L.getD (s0 - 1) ' ') = false)) →
    ∀ s e, ((s, e) ∈ wordRunsAux l i cur ↔
      (isWordRun L s e ∧ (match cur with
        | none => i ≤ s
        | some s0 => s = s0 ∨ i ≤ s))) := by
  intro l
  induction l with
  | nil =>
    intro i hil hlen cur hcur s e
    have hiL : i = L.length := by
      have := List.drop_eq_nil_iff.mp hil.symm
      omega
    cases cur with
    | none =>
      simp only [wordRunsAux, List.not_mem_nil, false_iff]
      intro ⟨⟨h1, h2, _, _, _⟩, h6⟩
      omega
    | some s0 =>
      simp only [wordRunsAux, List.mem_singleton, Prod.mk.injEq]
      constructor
      · rintro ⟨rfl, rfl⟩
        refine ⟨⟨by omega, by omega, ?_, hcur.2.2, Or.inl hiL⟩, Or.inl rfl⟩
        intro k hk1 hk2
        exact hcur.2.1 k hk1 (by omega)
      · rintro ⟨hrun, hs | hs⟩
        · subst hs
          refine ⟨rfl, ?_⟩
          have hrun0 : isWordRun L s i := by
            refine ⟨hcur.1, by omega, ?_, hcur.2.2, Or.inl hiL⟩
            intro k hk1 hk2
            exact hcur.2.1 k hk1 (by omega)
          exact (isWordRun_end_unique hrun hrun0)
        · rcases hrun with ⟨h1, h2, _, _, _⟩
          omega
  | cons c rest ih =>
    intro i hil hlen cur hcur s e
    have hrest : rest = L.drop (i + 1) := (drop_cons_next hil.symm).symm
    have hgc : L.getD i ' ' = c := drop_cons_getD hil.symm
    have hlen' : i + 1 ≤ L.length := by
      have : L.drop i ≠ [] := by rw [← hil]; simp
      have := List.drop_eq_nil_iff.not.mp this
      omega
    cases cur with
    | none =>
      by_cases hwc : isWordChar c = true
      · rw [show wordRunsAux (c :: rest) i none = wordRunsAux rest (i + 1) (some i) by
          simp [wordRunsAux, hwc]]
        rw [ih (i + 1) hrest hlen' (some i)
          ⟨by omega, by intro k hk1 hk2; rw [show k = i by omega, hgc]; exact hwc,
            hcur⟩ s e]
        constructor
        · rintro ⟨hrun, hs | hs⟩
          · exact ⟨hrun, by omega⟩
          · exact ⟨hrun, by omega⟩
        · rintro ⟨hrun, hs⟩
          refine ⟨hrun, ?_⟩
          rcases Nat.eq_or_lt_of_le hs with hs' | hs'
          · exact Or.inl hs'.symm
          · exact Or.inr (by omega)
      · rw [show wordRunsAux (c :: rest) i none = wordRunsAux rest (i + 1) none by
          simp [wordRunsAux, hwc]]
        rw [ih (i + 1) hrest hlen' none (Or.inr (by
          have hwcf : isWordChar c = false := by
            cases hb : isWordChar c with
            | false => rfl
            | true => exact absurd hb hwc
          rw [← hgc] at hwcf
          exact hwcf)) s e]
        constructor
        · rintro ⟨hrun, hs⟩
          exact ⟨hrun, by omega⟩
        · rintro ⟨hrun, hs⟩
          refine ⟨hrun, ?_⟩
          rcases Nat.eq_or_lt_of_le hs with hs' | hs'
          · exfalso
            rcases hrun with ⟨h1, h2, h3, _, _⟩
            have := h3 s (le_refl s) h1
            rw [← hs', hgc] at this
            exact absurd this hwc
          · omega
    | some s0 =>
      by_cases hwc : isWordChar c = true
      · rw [show wordRunsAux (c :: rest) i (some s0) =
            wordRunsAux rest (i + 1) (some s0) by simp [wordRunsAux, hwc]]
        rw [ih (i + 1) hrest hlen' (some s0)
          ⟨by omega,
            by
              intro k hk1 hk2
              rcases Nat.lt_or_ge k i with hk | hk
              · exact hcur.2.1 k hk1 hk
              · rw [show k = i by omega, hgc]; exact hwc,
            hcur.2.2⟩ s e]
        constructor
        · rintro ⟨hrun, hs | hs⟩
          · exact ⟨hrun, Or.inl hs⟩
          · exact ⟨hrun, Or.inr (by omega)⟩
        · rintro ⟨hrun, hs | hs⟩
          · exact ⟨hrun, Or.inl hs⟩
          · refine ⟨hrun, ?_⟩
            rcases Nat.eq_or_lt_of_le hs with hs' | hs'
            · exfalso
              rcases hrun with ⟨h1, h2, h3, h4, _⟩
              rcases h4 with h4 | h4
              · omega
              · rw [show s - 1 = i - 1 by omega] at h4
                have := hcur.2.1 (i - 1) (by omega) (by omega)
                rw [this] at h4
                cases h4
            · exact Or.inr (by omega)
      · rw [show wordRunsAux (c :: rest) i (some s0) =
            (s0, i) :: wordRunsAux rest (i + 1) none by simp [wordRunsAux, hwc]]
        have hrun0 : isWordRun L s0 i := by
          refine ⟨hcur.1, by omega, ?_, hcur.2.2, Or.inr (by
            have hwcf : isWordChar c = false := by
              cases hb : isWordChar c with
              | false => rfl
              | true => exact absurd hb hwc
            rw [← hgc] at hwcf
            exact hwcf)⟩
          intro k hk1 hk2
          exact hcur.2.1 k hk1 hk2
        rw [List.mem_cons]
        rw [ih (i + 1) hrest hlen' none (Or.inr (by
          have hwcf : isWordChar c = false := by
            cases hb : isWordChar c with
            | false => rfl
            | true => exact absurd hb hwc
          rw [← hgc] at hwcf
          exact hwcf)) s e]
        constructor
        · rintro (heq | ⟨hrun, hs⟩)
          · rw [Prod.mk.injEq] at heq
            rcases heq with ⟨rfl, rfl⟩
            exact ⟨hrun0, Or.inl rfl⟩
          · exact ⟨hrun, Or.inr (by omega)⟩
        · rintro ⟨hrun, hs | hs⟩
          · subst hs
            left
            rw [Prod.mk.injEq]
            exact ⟨rfl, isWordRun_end_unique hrun hrun0⟩
          · right
            refine ⟨hrun, ?_⟩
            rcases Nat.eq_or_lt_of_le hs with hs' | hs'
            · exfalso
              rcases hrun with ⟨h1, h2, h3, _, _⟩
              have := h3 s (le_refl s) h1
              rw [← hs', hgc] at this
              exact absurd this hwc
            · omega

/-- Membership in `wordRuns` is exactly being a maximal word run. -/
theorem wordRuns_iff (L : Str) (s e : Nat) :
    (s, e) ∈ wordRuns L ↔ isWordRun L s e := by
  unfold wordRuns
  rw [wordRunsAux_iff L L 0 (by simp) (by omega) none (Or.inl rfl) s e]
  simp

theorem getWordBounds_some {line : Str} {ch s e : Nat}
    (h : getWordBounds line ch = some (s, e)) :
    isWordRun line s e ∧ s ≤ ch ∧ ch ≤ e := by
  unfold getWordBounds at h
  have hmem := List.mem_of_find?_eq_some h
  have hp := List.find?_some h
  simp only [Bool.and_eq_true, decide_eq_true_eq] at hp
  exact ⟨(wordRuns_iff line s e).mp hmem, hp⟩

theorem getWordBounds_none {line : Str} {ch : Nat}
    (h : getWordBounds line ch = none) :
    ∀ s e, isWordRun line s e → ¬(s ≤ ch ∧ ch ≤ e) := by
  intro s e hrun hc
  unfold getWordBounds at h
  have := List.find?_eq_none.mp h (s, e) ((wordRuns_iff line s e).mpr hrun)
  simp only [Bool.and_eq_true, decide_eq_true_eq] at this
  exact this hc

/-- Case analysis on the located word bounds inside the use-word decision
(`main.ts` 1134–1146). -/
def decideUseWordCore (wordOnly : Bool) (ch : Nat) : Option (Nat × Nat) → Bool
  | none => false
  | some (s, e) =>
    if decide (s < ch) && decide (ch < e) then true
    else if wordOnly && (decide (ch = s) || decide (ch = e)) then true
    else false

/-- The use-word decision of `toggleComment` (`main.ts` 1130–1146): with no
selection, operate on the word exactly when the cursor is strictly inside it,
or word-only mode is on and the cursor is at its boundary. -/
def decideUseWord (wordOnly : Bool) (selNonempty : Bool) (line : Str)
    (ch : Nat) : Bool :=
  if selNonempty then false
  else decideUseWordCore wordOnly ch (getWordBounds line ch)

/-- The target range chosen by `toggleComment` (`main.ts` 1149–1159) when
there is no selection: the word bounds in word mode, a zero-width cursor
range otherwise. -/
def targetRangeNoSel (wordOnly : Bool) (line : Str) (ch : Nat) : Nat × Nat :=
  if decideUseWord wordOnly false line ch then
    match getWordBounds line ch with
    | some (s, e) => (s, e)
    | none => (ch, ch)
  else (ch, ch)

theorem decideUseWordCore_true {wordOnly : Bool} {ch s e : Nat}
    (h : (s < ch ∧ ch < e) ∨ (wordOnly = true ∧ (ch = s ∨ ch = e))) :
    decideUseWordCore wordOnly ch (some (s, e)) = true := by
  show (if decide (s < ch) && decide (ch < e) then true
    else if wordOnly && (decide (ch = s) || decide (ch = e)) then true
    else false) = true
  by_cases hstrict : (decide (s < ch) && decide (ch < e)) = true
  · rw [if_pos hstrict]
  · rw [if_neg hstrict]
    rcases h with ⟨h1, h2⟩ | ⟨hwo, h1⟩
    · exfalso
      apply hstrict
      simp only [Bool.and_eq_true, decide_eq_true_eq]
      exact ⟨h1, h2⟩
    · rw [if_pos (by
        simp only [hwo, Bool.true_and, Bool.or_eq_true, decide_eq_true_eq]
        exact h1)]

/-- CLAIM C7 — with no selection, the resolver chooses the word target exactly
when the cursor lies strictly inside a maximal run of word characters, or
word-only mode is set and the cursor sits exactly at such a run's start or
end boundary; in every other cursor case the target is the zero-width cursor
point. -/
theorem useWord_decision_characterization (wordOnly : Bool) (line : Str)
    (ch : Nat) :
    (decideUseWord wordOnly false line ch = true ↔
      ((∃ s e, isWordRun line s e ∧ s < ch ∧ ch < e) ∨
        (wordOnly = true ∧ ∃ s e, isWordRun line s e ∧ (ch = s ∨ ch = e)))) ∧
    (decideUseWord wordOnly false line ch = false →
      targetRangeNoSel wordOnly line ch = (ch, ch)) := by
  constructor
  · constructor
    · intro h
      unfold decideUseWord at h
      rw [if_neg (by simp)] at h
      cases hgb : getWordBounds line ch with
      | none => rw [hgb] at h; simp [decideUseWordCore] at h
      | some p =>
        rcases p with ⟨s, e⟩
        rw [hgb] at h
        rcases getWordBounds_some hgb with ⟨hrun, hs, he⟩
        by_cases h1 : (decide (s < ch) && decide (ch < e)) = true
        · simp only [Bool.and_eq_true, decide_eq_true_eq] at h1
          exact Or.inl ⟨s, e, hrun, h1⟩
        · by_cases h2 :
              (wordOnly && (decide (ch = s) || decide (ch = e))) = true
          · simp only [Bool.and_eq_true, Bool.or_eq_true,
              decide_eq_true_eq] at h2
            exact Or.inr ⟨h2.1, s, e, hrun, h2.2⟩
          · exfalso
            rw [show decideUseWordCore wordOnly ch (some (s, e)) = false by
              simp only [decideUseWordCore, if_neg h1, if_neg h2]] at h
            cases h
    · intro h
      have hex : ∃ s e, isWordRun line s e ∧ s ≤ ch ∧ ch ≤ e ∧
          ((s < ch ∧ ch < e) ∨ (wordOnly = true ∧ (ch = s ∨ ch = e))) := by
        rcases h with ⟨s, e, hrun, h1, h2⟩ | ⟨hwo, s, e, hrun, h1⟩
        · exact ⟨s, e, hrun, by omega, by omega, Or.inl ⟨h1, h2⟩⟩
        · have hse : s < e := hrun.1
          exact ⟨s, e, hrun, by omega, by omega, Or.inr ⟨hwo, h1⟩⟩
      rcases hex with ⟨s, e, hrun, hs, he, hcase⟩
      cases hgb : getWordBounds line ch with
      | none => exact absurd ⟨hs, he⟩ (getWordBounds_none hgb s e hrun)
      | some p =>
        rcases p with ⟨s2, e2⟩
        rcases getWordBounds_some hgb with ⟨hrun2, hs2, he2⟩
        have huniq := isWordRun_unique hrun hrun2 ⟨hs, he⟩ ⟨hs2, he2⟩
        rcases huniq with ⟨rfl, rfl⟩
        unfold decideUseWord
        rw [if_neg (by simp), hgb]
        exact decideUseWordCore_true hcase
  · intro h
    unfold targetRangeNoSel
    rw [if_neg (by simp [h])]

/-- Witness for C7 evaluated at `foo bar`, cursor strictly inside `bar`. -/
theorem useWord_decision_witness :
    decideUseWord false false ("foo bar".toList) 5 = true :=
  (useWord_decision_characterization false ("foo bar".toList) 5).1.mpr
    (Or.inl ⟨4, 7, ⟨by omega, by decide, by
        intro k hk1 hk2
        interval_cases k <;> decide, by decide, by decide⟩,
      by omega, by omega⟩)

/-! ## Editor state

The document is its list of lines (none containing a newline); the
cursor/selection is an anchor/head pair, `getCursor()` returning the head and
`getCursor("from")`/`getCursor("to")` the two ends in document order.  A
plain cursor is `anchor = head`. -/

/-- A zero-based line/column address. -/
structure Pos where
  line : Nat
  ch : Nat
  deriving Repr, DecidableEq

/-- Document order on positions. -/
def posLE (p q : Pos) : Bool :=
  decide (p.line < q.line) || (decide (p.line = q.line) && decide (p.ch ≤ q.ch))

def posMin (p q : Pos) : Pos := if posLE p q then p else q

def posMax (p q : Pos) : Pos := if posLE p q then q else p

/-- Host editor state: document lines plus selection anchor and head. -/
structure EditorState where
  lines : List Str
  anchor : Pos
  head : Pos
  deriving Repr, DecidableEq

/-- `editor.getLine(i)` (out-of-range reads give the empty string, as the
optional-chaining accesses in the source do). -/
def lineAt (lines : List Str) (i : Nat) : Str := lines.getD i []

/-- A position is inside the document: `line < lineCount` and
`ch ≤ length(line[line])`. -/
def validPos (lines : List Str) (p : Pos) : Prop :=
  p.line < lines.length ∧ p.ch ≤ (lineAt lines p.line).length

/-- Well-formed host state: at least one line, no embedded newlines, both
selection ends valid. -/
def wfState (st : EditorState) : Prop :=
  st.lines ≠ [] ∧ (∀ l ∈ st.lines, '\n' ∉ l) ∧
    validPos st.lines st.anchor ∧ validPos st.lines st.head

/-- `clampCursorPos` (`main.ts` 785–790). -/
def clampCursorPos (lines : List Str) (p : Pos) : Pos :=
  let line := min p.line (lines.length - 1)
  ⟨line, min p.ch (lineAt lines line).length⟩

/-- Split a flat string at newlines (JS `split('\n')`; never empty). -/
def splitOnNl : Str → List Str
  | [] => [[]]
  | c :: r =>
    if c = '\n' then [] :: splitOnNl r
    else
      match splitOnNl r with
      | [] => [[c]]
      | h :: tl => (c :: h) :: tl

/-- Join lines with newlines (JS `join('\n')`, `editor.getValue()`). -/
def joinNl : List Str → Str
  | [] => []
  | [l] => l
  | l :: ls => l ++ '\n' :: joinNl ls

/-- Character offset of a position into the joined document. -/
def posOffset (lines : List Str) (p : Pos) : Nat :=
  (((lines.take p.line).map (fun l => l.length + 1)).sum) + p.ch

/-- `editor.getRange(f, t)`: the document text between two positions. -/
def getRange (lines : List Str) (f t : Pos) : Str :=
  ((joinNl lines).drop (posOffset lines f)).take
    (posOffset lines t - posOffset lines f)

/-- The current selection text (`editor.getSelection()`). -/
def getSel (st : EditorState) : Str :=
  getRange st.lines (posMin st.anchor st.head) (posMax st.anchor st.head)

/-- `editor.replaceRange(s, f, t)`: splice `s` (possibly multi-line) over the
range `f..t`. -/
def replaceRange (lines : List Str) (f t : Pos) (s : Str) : List Str :=
  let lf := lineAt lines f.line
  let lt := lineAt lines t.line
  let mid := lf.take f.ch ++ s ++ lt.drop t.ch
  lines.take f.line ++ splitOnNl mid ++ lines.drop (t.line + 1)

/-- Take-based slice with plain `Nat` bounds (`line.slice(a, b)` with
in-range arguments). -/
def jsSliceN (s : Str) (a b : Nat) : Str := (s.take b).drop a

/-! ## `scanForFirst` (`main.ts` 841–865) -/

/-- Backward scan of one line: positions `n-1, n-2, …, 0`, marker checked
before opposite at each index. -/
def scanLineBack (line ms mo : Str) : Nat → Option (Nat × Bool)
  | 0 => none
  | n + 1 =>
    if matchAt line n ms then some (n, true)
    else if matchAt line n mo then some (n, false)
    else scanLineBack line ms mo n

/-- Forward scan of one line with explicit fuel, starting at `idx`. -/
def scanLineFwd (line ms mo : Str) : Nat → Nat → Option (Nat × Bool)
  | _, 0 => none
  | idx, fuel + 1 =>
    if matchAt line idx ms then some (idx, true)
    else if matchAt line idx mo then some (idx, false)
    else scanLineFwd line ms mo (idx + 1) fuel

/-- Forward scan of one line over
`idx = searchStart … line.length - min(|ms|, |mo|)`. -/
def scanLineFwdFrom (line ms mo : Str) (searchStart : Nat) :
    Option (Nat × Bool) :=
  let bound : Int := (line.length : Int) - (min ms.length mo.length : Nat)
  if (searchStart : Int) ≤ bound then
    scanLineFwd line ms mo searchStart (bound.toNat + 1 - searchStart)
  else none

/-- Backward multi-line scan: line `l` from `startCh`, then whole earlier
lines. -/
def scanBackAux (lines : List Str) (ms mo : Str) : Nat → Nat → Option (Pos × Bool)
  | 0, startCh =>
    (scanLineBack (lineAt lines 0) ms mo startCh).map
      (fun r => (⟨0, r.1⟩, r.2))
  | l + 1, startCh =>
    match scanLineBack (lineAt lines (l + 1)) ms mo startCh with
    | some r => some (⟨l + 1, r.1⟩, r.2)
    | none => scanBackAux lines ms mo l (lineAt lines l).length

/-- Forward multi-line scan (fuel counts remaining lines). -/
def scanFwdAux (lines : List Str) (ms mo : Str) : Nat → Nat → Nat → Option (Pos × Bool)
  | 0, _, _ => none
  | fuel + 1, l, startCh =>
    match scanLineFwdFrom (lineAt lines l) ms mo startCh with
    | some r => some (⟨l, r.1⟩, r.2)
    | none => scanFwdAux lines ms mo fuel (l + 1) 0

/-- `scanForFirst(lines, fromLine, fromCh, marker, opposite, direction)`:
scan for the trimmed marker, stopping if the trimmed opposite marker comes
first.  The `Bool` of the result is `true` for `'marker'`, `false` for
`'opposite'`. -/
def scanForFirst (lines : List Str) (fromLine fromCh : Nat)
    (marker opposite : Str) (back : Bool) : Option (Pos × Bool) :=
  let mT := jsTrim marker
  let oT := jsTrim opposite
  if back then scanBackAux lines mT oT fromLine fromCh
  else scanFwdAux lines mT oT (lines.length - fromLine) fromLine fromCh

/-! ## Comment detection and the toggle engine (`main.ts` 782–1386) -/

/-- The fixed fallback style list (`defaultStyles` in `main.ts`). -/
def defaultStyles : List (Str × Str) :=
  [("%%".toList, "%%".toList), ("<!--".toList, "-->".toList),
    ("//".toList, [])]

/-- `isTextCommentedExact` (`main.ts` 832–839). -/
def isTextCommentedExact (s start stop : Str) : Bool :=
  if start.isEmpty then false
  else if !stop.isEmpty then jsStartsWith s start && jsEndsWith s stop
  else jsStartsWith s start

/-- Detection state: `isComment`, `commentStartPos`, `commentEndPos`. -/
structure Detect where
  isComment : Bool
  cs : Option Pos
  ce : Option Pos
  deriving Repr, DecidableEq

/-- The scan-based detection (`main.ts` 866–895). -/
def detectScan (lines : List Str) (selB : Bool) (f t c : Pos)
    (ms me : Str) : Detect :=
  if !ms.isEmpty && !me.isEmpty then
    let before := if selB then scanForFirst lines f.line f.ch ms me true
      else scanForFirst lines c.line c.ch ms me true
    let after := if selB then scanForFirst lines t.line t.ch me ms false
      else scanForFirst lines c.line c.ch me ms false
    let cs := match before with
      | some (p, true) => some p
      | _ => none
    let ce := match after with
      | some (p, true) => some p
      | _ => none
    ⟨cs.isSome && ce.isSome, cs, ce⟩
  else ⟨false, none, none⟩

/-- `containsPartOfMarker` (`main.ts` 910–916): the selection contains some
non-empty prefix or suffix of the marker. -/
def containsPartOfMarker (sel m : Str) : Bool :=
  if m.isEmpty then false
  else (List.range m.length).any (fun j =>
    jsIncludes sel (jsSlice m 0 ((j + 1 : Nat) : Int)) ||
    jsIncludes sel (jsSliceFrom m (-((j + 1 : Nat) : Int))))

/-- The `foundStart` computation of the enhanced selection blocks. -/
def foundStartB (lineText sel ms : Str) (f : Pos) : Bool :=
  (containsPartOfMarker sel ms &&
    jsIncludes
      (jsSlice lineText (max 0 ((f.ch : Int) - ms.length))
        ((f.ch : Int) + sel.length)) ms) ||
  jsIncludes sel ms

/-- The `foundEnd` computation of the enhanced selection blocks. -/
def foundEndB (lineText sel me : Str) (f t : Pos) : Bool :=
  (containsPartOfMarker sel me &&
    jsIncludes
      (jsSlice lineText (f.ch : Int)
        (min (lineText.length : Int) ((t.ch : Int) + me.length))) me) ||
  jsIncludes sel me

/-- One line of the redundant forward search (`main.ts` 954–970):
`some (some i)` = end marker found at `i`, `some none` = another start marker
stopped the search, `none` = keep going. -/
def manualFwdLine (line ms me : Str) (selfIdx : Option Nat) :
    Nat → Nat → Option (Option Nat)
  | _, 0 => none
  | idx, fuel + 1 =>
    if matchAt line idx me then some (some idx)
    else if matchAt line idx ms && !(selfIdx == some idx) then some none
    else manualFwdLine line ms me selfIdx (idx + 1) fuel

def manualFwdLineFrom (line ms me : Str) (selfIdx : Option Nat)
    (start : Nat) : Option (Option Nat) :=
  let bound : Int := (line.length : Int) - me.length
  if (start : Int) ≤ bound then
    manualFwdLine line ms me selfIdx start (bound.toNat + 1 - start)
  else none

def manualFwdAux (lines : List Str) (ms me : Str)
    (searchLine searchCh : Nat) : Nat → Nat → Option Pos
  | 0, _ => none
  | fuel + 1, l =>
    let start := if l = searchLine then searchCh + ms.length else 0
    let selfIdx := if l = searchLine then some searchCh else none
    match manualFwdLineFrom (lineAt lines l) ms me selfIdx start with
    | some (some idx) => some ⟨l, idx⟩
    | some none => none
    | none => manualFwdAux lines ms me searchLine searchCh fuel (l + 1)

def manualFwd (lines : List Str) (ms me : Str)
    (searchLine searchCh : Nat) : Option Pos :=
  manualFwdAux lines ms me searchLine searchCh
    (lines.length - searchLine) searchLine

/-- One line of the redundant backward search (`main.ts` 979–995); the
argument is one past the highest index to inspect. -/
def manualBackLine (line ms me : Str) (selfIdx : Option Nat) :
    Nat → Option (Option Nat)
  | 0 => none
  | n + 1 =>
    if matchAt line n ms then some (some n)
    else if matchAt line n me && !(selfIdx == some n) then some none
    else manualBackLine line ms me selfIdx n

def manualBackAux (lines : List Str) (ms me : Str)
    (searchLine searchCh : Nat) : Nat → Option Pos
  | 0 =>
    let cnt := if 0 = searchLine then searchCh else (lineAt lines 0).length
    let selfIdx := if 0 = searchLine then some searchCh else none
    match manualBackLine (lineAt lines 0) ms me selfIdx cnt with
    | some (some idx) => some ⟨0, idx⟩
    | _ => none
  | l + 1 =>
    let cnt := if l + 1 = searchLine then searchCh
      else (lineAt lines (l + 1)).length
    let selfIdx := if l + 1 = searchLine then some searchCh else none
    match manualBackLine (lineAt lines (l + 1)) ms me selfIdx cnt with
    | some (some idx) => some ⟨l + 1, idx⟩
    | some none => none
    | none => manualBackAux lines ms me searchLine searchCh l

def manualBack (lines : List Str) (ms me : Str)
    (searchLine searchCh : Nat) : Option Pos :=
  manualBackAux lines ms me searchLine searchCh searchLine

/-- First enhanced selection-detection block (`main.ts` 903–1006); `none`
models the early `return` when the selection is at neither marker
boundary. -/
def enhanced1 (lines : List Str) (ms me sel : Str) (f t : Pos)
    (d : Detect) : Option Detect :=
  let lineText := lineAt lines f.line
  let fs := foundStartB lineText sel ms f
  let fe := foundEndB lineText sel me f t
  let d' :=
    if ms == me && !ms.isEmpty && (fs || fe) then
      let before := scanForFirst lines f.line f.ch ms [] true
      let after := scanForFirst lines t.line t.ch me [] false
      let cs := match before with
        | some (p, true) => some p
        | _ => d.cs
      let ce := match after with
        | some (p, true) => some p
        | _ => d.ce
      ⟨if cs.isSome && ce.isSome then true else d.isComment, cs, ce⟩
    else if fs && !fe then
      let sc0 := jsIndexOfFrom lineText ms (f.ch : Int)
      let searchCh := if sc0 == -1 then f.ch else sc0.toNat
      match manualFwd lines ms me f.line searchCh with
      | some endPos => ⟨true, some ⟨f.line, searchCh⟩, some endPos⟩
      | none => d
    else if fe && !fs then
      let sc0 := jsIndexOfFrom lineText me (f.ch : Int)
      let searchCh := if sc0 == -1 then t.ch else sc0.toNat
      match manualBack lines ms me t.line searchCh with
      | some startPos => ⟨true, some startPos, some ⟨t.line, searchCh⟩⟩
      | none => d
    else d
  let atStart := decide (f.ch ≤ ms.length) &&
    jsStartsWith (jsSlice lineText 0 (ms.length : Int)) ms
  let atEnd := decide ((lineText.length : Int) - me.length ≤ (t.ch : Int)) &&
    jsEndsWith (jsSliceFrom lineText (-(me.length : Int))) me
  if !atStart && !atEnd then none else some d'

/-- Second enhanced selection-detection block (`main.ts` 1009–1073). -/
def enhanced2 (lines : List Str) (ms me sel : Str) (f t : Pos)
    (d : Detect) : Detect :=
  let lineText := lineAt lines f.line
  let fs := foundStartB lineText sel ms f
  let fe := foundEndB lineText sel me f t
  if ms == me && !ms.isEmpty && (fs || fe) then
    let before := scanForFirst lines f.line f.ch ms [] true
    let after := scanForFirst lines t.line t.ch me [] false
    let cs := match before with
      | some (p, true) => some p
      | _ => d.cs
    let ce := match after with
      | some (p, true) => some p
      | _ => d.ce
    ⟨if cs.isSome && ce.isSome then true else d.isComment, cs, ce⟩
  else if fs then
    let after := scanForFirst lines t.line t.ch me ms false
    let ce := match after with
      | some (p, true) => some p
      | _ => d.ce
    let sc := jsIndexOfFrom lineText ms (f.ch : Int)
    let cs := if sc == -1 then d.cs else some ⟨f.line, sc.toNat⟩
    ⟨if cs.isSome && ce.isSome then true else d.isComment, cs, ce⟩
  else if fe then
    let before := scanForFirst lines f.line f.ch ms me true
    let cs := match before with
      | some (p, true) => some p
      | _ => d.cs
    let ec := jsIndexOfFrom lineText me (f.ch : Int)
    let ce := if ec == -1 then d.ce else some ⟨t.line, ec.toNat⟩
    ⟨if cs.isSome && ce.isSome then true else d.isComment, cs, ce⟩
  else d

/-- The marker-removal path (`main.ts` 1075–1127): delete the start marker
plus one following space and the end marker plus one preceding space, then
reposition the cursor.  The editor's `replaceRange` of the re-joined
modified lines is exactly the per-line update of the local `allLines`
mutation, so the result document is the mutated line list. -/
def removePath (st : EditorState) (ms me : Str) (f csp cep : Pos) :
    EditorState :=
  let lines := st.lines
  let smws := ms ++ [' ']
  let startLine := lineAt lines csp.line
  let lines1 := lines.set csp.line
    (startLine.take csp.ch ++ startLine.drop (csp.ch + smws.length))
  let emws := ' ' :: me
  let finish : List Str → EditorState := fun lines2 =>
    let newCh0 : Int := (f.ch : Int) - smws.length
    let newCh1 : Int := if newCh0 < 0 then 0 else newCh0
    let lastLine := lines2.length - 1
    let nl := min f.line lastLine
    let lineLen := (lineAt lines2 nl).length
    let newCh2 := min newCh1.toNat lineLen
    let cl := clampCursorPos lines2 ⟨nl, newCh2⟩
    ⟨lines2, cl, cl⟩
  if csp.line = cep.line then
    let updatedLine := lineAt lines1 cep.line
    let e0 : Int := (cep.ch : Int) - smws.length
    let e1 := jsIndexOfFrom updatedLine emws e0
    let e2 : Int :=
      if e1 == -1 then
        let e2' := jsIndexOfFrom updatedLine me e1
        if 0 < e2' && (updatedLine.getD (e2'.toNat - 1) '\x00') == ' ' then
          e2' - 1
        else e2'
      else e1
    if e2 == -1 then st
    else
      finish (lines1.set cep.line
        (updatedLine.take e2.toNat ++
          updatedLine.drop (e2.toNat + emws.length)))
  else
    let endLine := lineAt lines1 cep.line
    finish (lines1.set cep.line
      (endLine.take cep.ch ++ endLine.drop (cep.ch + emws.length)))

/-- Outcome of the removal-precedence checks (`main.ts` 1163–1244). -/
structure RemState where
  inside : Bool
  rS : Str
  rE : Str
  checkText : Str
  deriving Repr, DecidableEq

/-- The removal-precedence checks (`main.ts` 1163–1244). -/
def removalCheck (lines : List Str) (ms me sel : Str) (selB useWord : Bool)
    (wb : Option (Nat × Nat)) (line text : Str) (f t : Pos) : RemState :=
  if selB then
    let base : RemState :=
      if !ms.isEmpty && !me.isEmpty && jsStartsWith sel ms &&
          jsEndsWith sel me then ⟨true, ms, me, sel⟩
      else
        match defaultStyles.find? (fun sty =>
            !sty.1.isEmpty && !sty.2.isEmpty && jsStartsWith sel sty.1 &&
              jsEndsWith sel sty.2) with
        | some sty => ⟨true, sty.1, sty.2, sel⟩
        | none => ⟨false, ms, me, text⟩
    if base.inside then base
    else
      let lineStart := lineAt lines f.line
      let lineEnd := lineAt lines t.line
      let fullRange := getRange lines ⟨f.line, 0⟩
        ⟨t.line, (lineAt lines t.line).length⟩
      if !ms.isEmpty && !me.isEmpty && jsStartsWith lineStart ms &&
          jsEndsWith lineEnd me then ⟨true, ms, me, fullRange⟩
      else
        match defaultStyles.find? (fun sty =>
            !sty.1.isEmpty && !sty.2.isEmpty &&
              jsStartsWith lineStart sty.1 && jsEndsWith lineEnd sty.2) with
        | some sty => ⟨true, sty.1, sty.2, fullRange⟩
        | none => ⟨false, ms, me, text⟩
  else if useWord && wb.isSome then
    let base : RemState :=
      if !ms.isEmpty && !me.isEmpty && jsStartsWith line ms &&
          jsEndsWith line me then ⟨true, ms, me, line⟩
      else
        match defaultStyles.find? (fun sty =>
            !sty.1.isEmpty && !sty.2.isEmpty && jsStartsWith line sty.1 &&
              jsEndsWith line sty.2) with
        | some sty => ⟨true, sty.1, sty.2, line⟩
        | none => ⟨false, ms, me, text⟩
    if base.inside then base
    else if !ms.isEmpty && !me.isEmpty && jsStartsWith text ms &&
        jsEndsWith text me then ⟨true, ms, me, text⟩
    else
      match defaultStyles.find? (fun sty =>
          !sty.1.isEmpty && !sty.2.isEmpty && jsStartsWith text sty.1 &&
            jsEndsWith text sty.2) with
      | some sty => ⟨true, sty.1, sty.2, text⟩
      | none => ⟨false, ms, me, text⟩
  else
    if !ms.isEmpty && !me.isEmpty && jsStartsWith line ms &&
        jsEndsWith line me then ⟨true, ms, me, line⟩
    else
      match defaultStyles.find? (fun sty =>
          !sty.1.isEmpty && !sty.2.isEmpty && jsStartsWith line sty.1 &&
            jsEndsWith line sty.2) with
      | some sty => ⟨true, sty.1, sty.2, line⟩
      | none => ⟨false, ms, me, text⟩

/-- The `removalInside` branch (`main.ts` 1249–1272): normally a no-op
`return`; if the selection equals the start marker and only whitespace sits
between the markers on the line, both markers are deleted (the host clips a
negative cursor offset to zero). -/
def removalReturn (st : EditorState) (rc : RemState) (selB : Bool)
    (f : Pos) : EditorState :=
  let lines := st.lines
  if selB && !rc.rS.isEmpty && rc.checkText == rc.rS then
    let lineText := lineAt lines f.line
    let startIdx := jsIndexOf lineText rc.rS
    let endIdx := if !rc.rE.isEmpty then
        jsIndexOfFrom lineText rc.rE (startIdx + rc.rS.length)
      else -1
    if endIdx == -1 then st
    else
      let between := jsSlice lineText (startIdx + rc.rS.length) endIdx
      if between.all isWs then
        let newLine := jsSlice lineText 0 startIdx ++
          jsSliceFrom lineText (endIdx + rc.rE.length)
        let lines' := lines.set f.line newLine
        let cur : Pos := ⟨f.line, startIdx.toNat⟩
        ⟨lines', cur, cur⟩
      else st
  else st

/-- `buildCommented` (`main.ts` 1301–1303). -/
def buildCommented (ms me text : Str) : Str :=
  ms ++ ' ' :: (text ++ ' ' :: me)

/-- `stripCommented` (`main.ts` 1305–1316). -/
def stripCommented (ms me str : Str) : Option Str :=
  let start := ms ++ [' ']
  let stop := ' ' :: me
  if jsStartsWith str start && jsEndsWith str stop then
    some (jsSlice str (start.length : Int)
      ((str.length : Int) - stop.length))
  else if jsStartsWith str ms && jsEndsWith str me then
    some (jsTrim (jsSlice str (ms.length : Int)
      ((str.length : Int) - me.length)))
  else none

/-- The exact-marker `inside` check with fallback styles
(`main.ts` 1274–1296). -/
def insideExact (ms me checkText : Str) : Bool × Str × Str :=
  if !ms.isEmpty && isTextCommentedExact checkText ms me then (true, ms, me)
  else
    match defaultStyles.find? (fun sty =>
        !sty.1.isEmpty && isTextCommentedExact checkText sty.1 sty.2) with
    | some sty => (true, sty.1, sty.2)
    | none => (false, ms, me)

/-- The strip/insert tail of the toggle engine (`main.ts` 1274–1386),
including the final defensive clamp. -/
def stripOrInsert (st : EditorState) (ms me : Str) (selB useWord : Bool)
    (wb : Option (Nat × Nat)) (line text : Str) (f t c : Pos) : EditorState :=
  let lines := st.lines
  let checkText := if selB then text
    else match wb with
      | some (ws, we) => if useWord then jsSliceN line ws we else text
      | none => text
  let ins0 := insideExact ms me checkText
  let uncommented :=
    if selB then stripCommented ms me text
    else match wb with
      | some (ws, we) =>
        if useWord then stripCommented ms me (jsSliceN line ws we)
        else stripCommented ms me text
      | none => stripCommented ms me text
  let inside := ins0.1 || uncommented.isSome
  let st2 : EditorState :=
    if inside then
      let safeUncommented := uncommented.getD text
      if selB then
        let lines' := replaceRange lines f t safeUncommented
        let selFrom := clampCursorPos lines' f
        let selTo := clampCursorPos lines'
          ⟨t.line, f.ch + safeUncommented.length⟩
        ⟨lines', selFrom, selTo⟩
      else match wb with
        | some (ws, we) =>
          if useWord then
            let lines' := replaceRange lines ⟨c.line, ws⟩ ⟨c.line, we⟩
              safeUncommented
            let cl := clampCursorPos lines' ⟨c.line, ws + safeUncommented.length⟩
            ⟨lines', cl, cl⟩
          else
            let lines' := replaceRange lines c c safeUncommented
            let cl := clampCursorPos lines' c
            ⟨lines', cl, cl⟩
        | none =>
          let lines' := replaceRange lines c c safeUncommented
          let cl := clampCursorPos lines' c
          ⟨lines', cl, cl⟩
    else
      let trimmedText := jsTrim text
      let commented :=
        if !selB && trimmedText.isEmpty then ms ++ ' ' :: ' ' :: me
        else buildCommented ms me trimmedText
      if !selB && trimmedText.isEmpty then
        let lines' := replaceRange lines c c commented
        let cl := clampCursorPos lines' ⟨c.line, c.ch + ms.length + 1⟩
        ⟨lines', cl, cl⟩
      else if selB then
        let lines' := replaceRange lines f t commented
        let startOffset := ms.length + 1
        let selFrom := clampCursorPos lines' ⟨f.line, f.ch + startOffset⟩
        let selTo := clampCursorPos lines'
          ⟨t.line, f.ch + startOffset + trimmedText.length⟩
        ⟨lines', selFrom, selTo⟩
      else match wb with
        | some (ws, we) =>
          if useWord then
            let lines' := replaceRange lines ⟨c.line, ws⟩ ⟨c.line, we⟩
              commented
            let cl := clampCursorPos lines' ⟨c.line, ws + ms.length + 1⟩
            ⟨lines', cl, cl⟩
          else
            let lines' := replaceRange lines c c commented
            let cl := clampCursorPos lines' ⟨c.line, c.ch + ms.length + 1⟩
            ⟨lines', cl, cl⟩
        | none =>
          let lines' := replaceRange lines c c commented
          let cl := clampCursorPos lines' ⟨c.line, c.ch + ms.length + 1⟩
          ⟨lines', cl, cl⟩
  let fc := clampCursorPos st2.lines st2.head
  if fc = st2.head then st2 else ⟨st2.lines, fc, fc⟩

/-- The target resolution of `toggleComment` (`main.ts` 1148–1159):
selection text, word slice, or zero-width cursor point. -/
def resolveTargetT (sel : Str) (selB useWord : Bool)
    (wb : Option (Nat × Nat)) (line : Str) (f t c : Pos) : Str × Pos × Pos :=
  if selB then (sel, f, t)
  else match wb with
    | some (ws, we) =>
      if useWord then (jsSliceN line ws we, ⟨c.line, ws⟩, ⟨c.line, we⟩)
      else ([], c, c)
    | none => ([], c, c)

/-- The stage of `toggleComment` after marker detection (`main.ts`
1129–1386): resolve the target, run the removal-precedence checks, then
strip or insert. -/
def afterDetect (st : EditorState) (ms me sel : Str) (selB : Bool)
    (wordOnly : Bool) (f t c : Pos) : EditorState :=
  let lines := st.lines
  let line := lineAt lines c.line
  let wb := getWordBounds line c.ch
  let useWord := decideUseWord wordOnly selB line c.ch
  let tgt := resolveTargetT sel selB useWord wb line f t c
  let text := tgt.1
  let f' := tgt.2.1
  let t' := tgt.2.2
  let rc := removalCheck lines ms me sel selB useWord wb line text f' t'
  if rc.inside then removalReturn st rc selB f'
  else stripOrInsert st ms me selB useWord wb line text f' t' c

/-- `toggleComment(editor, markerSet)` (`main.ts` 782–1386), for an explicit
marker set. -/
def toggleComment (markerSet : Str × Str) (wordOnly : Bool)
    (st : EditorState) : EditorState :=
  let ms := jsTrim markerSet.1
  let me := jsTrim markerSet.2
  let lines := st.lines
  let sel := getSel st
  let selB := !sel.isEmpty
  let c := st.head
  let f := posMin st.anchor st.head
  let t := posMax st.anchor st.head
  let d0 := detectScan lines selB f t c ms me
  let step1 : Option Detect :=
    if selB && !ms.isEmpty && !me.isEmpty then enhanced1 lines ms me sel f t d0
    else some d0
  match step1 with
  | none => st
  | some d1 =>
    let d2 := if selB && !ms.isEmpty && !me.isEmpty then
        enhanced2 lines ms me sel f t d1
      else d1
    if d2.isComment && d2.cs.isSome && d2.ce.isSome then
      match d2.cs, d2.ce with
      | some csp, some cep => removePath st ms me f csp cep
      | _, _ => afterDetect st ms me sel selB wordOnly f t c
    else afterDetect st ms me sel selB wordOnly f t c

/-! ## Counterexamples (concrete runs of `toggleComment`) -/

/-- Counterexample to CLAIM C1: with the marker set `//` / `` (empty end
marker, a configuration the engine accepts and one of its own fallback
styles), toggling a selection of the text `abc` — which contains no marker
— inserts `// abc `, and toggling again inserts again instead of removing:
the document ends as `// // abc  `, not `abc`. -/
theorem toggleComment_roundtrip_counterexample :
    jsTrim ("//".toList) ≠ [] ∧
    ¬ (jsTrim ("//".toList) <:+: joinNl ["abc".toList]) ∧
    (toggleComment ("//".toList, "".toList) false
        ⟨["abc".toList], ⟨0, 0⟩, ⟨0, 3⟩⟩).lines = ["// abc ".toList] ∧
    (toggleComment ("//".toList, "".toList) false
        (toggleComment ("//".toList, "".toList) false
          ⟨["abc".toList], ⟨0, 0⟩, ⟨0, 3⟩⟩)).lines =
      ["// // abc  ".toList] := by
  refine ⟨by decide, by decide, by decide, by decide⟩

/-- Counterexample to CLAIM C2: with `start = ""` and `end = "%%"`, a
bare-cursor toggle on `abc` mutates the document (it inserts two spaces and
the end marker), so an empty start marker is not a no-op. -/
theorem toggleComment_emptyStart_counterexample :
    ("".toList : Str) = [] ∧
    (toggleComment ("".toList, "%%".toList) false
        ⟨["abc".toList], ⟨0, 0⟩, ⟨0, 0⟩⟩).lines = ["  %%abc".toList] ∧
    (toggleComment ("".toList, "%%".toList) false
        ⟨["abc".toList], ⟨0, 0⟩, ⟨0, 0⟩⟩).lines ≠ ["abc".toList] := by
  refine ⟨rfl, by decide, by decide⟩

/-- Counterexample to CLAIM C3: markers `%%`/`%%` (non-empty start), document
`hello world`, selection covering the whole line; the locator finds no
marker pair, yet `toggleComment` returns with the document and selection
untouched — the boundary guard of the enhanced selection block
(`main.ts` 999–1005) silently returns instead of inserting. -/
theorem toggleComment_detectionMiss_counterexample :
    jsTrim ("%%".toList) ≠ [] ∧
    (detectScan ["hello world".toList] true ⟨0, 0⟩ ⟨0, 11⟩ ⟨0, 11⟩
        ("%%".toList) ("%%".toList)).isComment = false ∧
    toggleComment ("%%".toList, "%%".toList) false
        ⟨["hello world".toList], ⟨0, 0⟩, ⟨0, 11⟩⟩ =
      ⟨["hello world".toList], ⟨0, 0⟩, ⟨0, 11⟩⟩ := by
  refine ⟨by decide, by decide, by decide⟩

/-- Counterexample to CLAIM C4: marker set `//` / `` and a selection whose
text `␣␣a` carries leading whitespace.  The insert path wraps the *trimmed*
text, producing the line `// a `; the original selection text `␣␣a`, padded
only by the single separator spaces, appears nowhere in the result. -/
theorem toggleComment_insertVerbatim_counterexample :
    (toggleComment ("//".toList, "".toList) false
        ⟨["  a".toList], ⟨0, 0⟩, ⟨0, 3⟩⟩).lines = ["// a ".toList] ∧
    ¬ ((("//".toList) ++ ' ' :: ("  a".toList) ++ [' ']) <:+:
        "// a ".toList) := by
  refine ⟨by decide, by decide⟩

/-- Counterexample to CLAIM C5: two `%%…%%` pairs on two lines, selection
`bbb` strictly inside the second pair.  The scan locates the second pair
(`isComment` holds with both positions on line 1), yet the toggle returns
with the document byte-for-byte unchanged: nothing is removed. -/
theorem toggleComment_secondPair_selection_counterexample :
    (detectScan ["%% aaa %%".toList, "%% bbb %%".toList] true
        ⟨1, 3⟩ ⟨1, 6⟩ ⟨1, 6⟩ ("%%".toList) ("%%".toList)).isComment = true ∧
    toggleComment ("%%".toList, "%%".toList) false
        ⟨["%% aaa %%".toList, "%% bbb %%".toList], ⟨1, 3⟩, ⟨1, 6⟩⟩ =
      ⟨["%% aaa %%".toList, "%% bbb %%".toList], ⟨1, 3⟩, ⟨1, 6⟩⟩ := by
  refine ⟨by decide, by decide⟩

/-! ## Document-operation lemmas -/

theorem splitOnNl_noNl {l : Str} (h : '\n' ∉ l) : splitOnNl l = [l] := by
  induction l with
  | nil => rfl
  | cons c r ih =>
    unfold splitOnNl
    rw [if_neg (by intro hc; exact h (by rw [hc]; exact List.mem_cons_self _ _))]
    rw [ih (fun hm => h (List.mem_cons_of_mem c hm))]

theorem splitOnNl_ne_nil (s : Str) : splitOnNl s ≠ [] := by
  cases s with
  | nil => simp [splitOnNl]
  | cons c r =>
    unfold splitOnNl
    by_cases hc : c = '\n'
    · simp [hc]
    · rw [if_neg hc]
      cases splitOnNl r <;> simp

theorem splitOnNl_mem_noNl (s : Str) : ∀ p ∈ splitOnNl s, '\n' ∉ p := by
  induction s with
  | nil =>
    intro p hp
    simp [splitOnNl] at hp
    simp [hp]
  | cons c r ih =>
    intro p hp
    unfold splitOnNl at hp
    by_cases hc : c = '\n'
    · rw [if_pos hc] at hp
      rcases List.mem_cons.mp hp with hp | hp
      · simp [hp]
      · exact ih p hp
    · rw [if_neg hc] at hp
      cases hsp : splitOnNl r with
      | nil => exact absurd hsp (splitOnNl_ne_nil r)
      | cons h0 tl =>
        rw [hsp] at hp
        rcases List.mem_cons.mp hp with hp | hp
        · subst hp
          intro hm
          rcases List.mem_cons.mp hm with hm | hm
          · exact hc hm.symm
          · exact ih h0 (by rw [hsp]; exact List.mem_cons_self _ _) hm
        · exact ih p (by rw [hsp]; exact List.mem_cons_of_mem h0 hp)

theorem lineAt_mem {lines : List Str} {i : Nat} (h : i < lines.length) :
    lineAt lines i ∈ lines := by
  unfold lineAt
  rw [List.getD_eq_getElem?_getD, List.getElem?_eq_getElem h]
  exact List.getElem_mem _

theorem lineAt_noNl {lines : List Str} (hn : ∀ l ∈ lines, '\n' ∉ l)
    (i : Nat) : '\n' ∉ lineAt lines i := by
  rcases Nat.lt_or_ge i lines.length with h | h
  · exact hn _ (lineAt_mem h)
  · unfold lineAt
    rw [List.getD_eq_getElem?_getD, List.getElem?_eq_none (by omega)]
    simp

theorem noNl_take {l : Str} (h : '\n' ∉ l) (n : Nat) : '\n' ∉ l.take n :=
  fun hm => h ((List.take_subset n l) hm)

theorem noNl_drop {l : Str} (h : '\n' ∉ l) (n : Nat) : '\n' ∉ l.drop n :=
  fun hm => h ((List.drop_subset n l) hm)

theorem noNl_append {a b : Str} (ha : '\n' ∉ a) (hb : '\n' ∉ b) :
    '\n' ∉ a ++ b := by
  intro h
  rcases List.mem_append.mp h with h | h
  · exact ha h
  · exact hb h

/-- Replacing a zero-width or single-line range with newline-free text edits
exactly that line. -/
theorem replaceRange_sameLine {lines : List Str} {i a b : Nat} {s : Str}
    (hi : i < lines.length) (hn : ∀ l ∈ lines, '\n' ∉ l) (hs : '\n' ∉ s) :
    replaceRange lines ⟨i, a⟩ ⟨i, b⟩ s =
      lines.set i ((lineAt lines i).take a ++ s ++ (lineAt lines i).drop b) := by
  unfold replaceRange
  simp only
  rw [splitOnNl_noNl (by
    refine noNl_append (noNl_append ?_ hs) ?_
    · exact noNl_take (lineAt_noNl hn i) a
    · exact noNl_drop (lineAt_noNl hn i) b)]
  rw [List.set_eq_take_append_cons_drop, if_pos hi]
  simp

theorem clampCursorPos_valid {lines : List Str} (hne : lines ≠ []) (p : Pos) :
    validPos lines (clampCursorPos lines p) := by
  unfold clampCursorPos validPos
  constructor
  · have : lines.length ≠ 0 := by
      intro h
      exact hne (List.eq_nil_of_length_eq_zero h)
    simp only
    omega
  · simp only
    omega

theorem clampCursorPos_id {lines : List Str} {p : Pos} (hne : lines ≠ [])
    (h : validPos lines p) : clampCursorPos lines p = p := by
  unfold clampCursorPos
  rcases h with ⟨h1, h2⟩
  have : lines.length ≠ 0 := by
    intro h
    exact hne (List.eq_nil_of_length_eq_zero h)
  simp only
  have hl : min p.line (lines.length - 1) = p.line := by omega
  rw [hl]
  have hc : min p.ch (lineAt lines p.line).length = p.ch := by omega
  rw [hc]

theorem posMin_self (p : Pos) : posMin p p = p := by
  unfold posMin
  split <;> rfl

theorem posMax_self (p : Pos) : posMax p p = p := by
  unfold posMax
  split <;> rfl

theorem getRange_self (lines : List Str) (p : Pos) :
    getRange lines p p = [] := by
  unfold getRange
  rw [Nat.sub_self]
  exact List.take_zero _

theorem getSel_eq_nil {st : EditorState} (h : st.anchor = st.head) :
    getSel st = [] := by
  unfold getSel
  rw [h, posMin_self, posMax_self, getRange_self]

theorem lineAt_set_self {lines : List Str} {i : Nat} {x : Str}
    (h : i < lines.length) : lineAt (lines.set i x) i = x := by
  unfold lineAt
  rw [List.getD_eq_getElem?_getD, List.getElem?_set_self (by simpa using h)]
  rfl

theorem set_ne_nil {lines : List Str} (h : lines ≠ []) (i : Nat) (x : Str) :
    lines.set i x ≠ [] := by
  intro hc
  have := congrArg List.length hc
  rw [List.length_set] at this
  exact h (List.eq_nil_of_length_eq_zero this)

theorem noNl_set {lines : List Str} {x : Str}
    (hn : ∀ l ∈ lines, '\n' ∉ l) (hx : '\n' ∉ x) (i : Nat) :
    ∀ l ∈ lines.set i x, '\n' ∉ l := by
  intro l hl
  rcases List.mem_or_eq_of_mem_set hl with h | h
  · exact hn l h
  · rw [h]; exact hx

theorem decideUseWord_wbnone {wo : Bool} {line : Str} {ch : Nat}
    (h : getWordBounds line ch = none) :
    decideUseWord wo false line ch = false := by
  unfold decideUseWord
  rw [if_neg (by simp), h]
  rfl

theorem jsStartsWith_nil {ms : Str} (h : ms ≠ []) :
    jsStartsWith [] ms = false := by
  unfold jsStartsWith
  cases ms with
  | nil => exact absurd rfl h
  | cons c r => rfl

theorem isTextCommentedExact_nil {ms me : Str} (h : ms ≠ []) :
    isTextCommentedExact [] ms me = false := by
  unfold isTextCommentedExact
  rw [if_neg (by simpa using h)]
  cases hme : me.isEmpty with
  | true =>
    rw [if_neg (by simp)]
    exact jsStartsWith_nil h
  | false =>
    rw [if_pos (by simp)]
    rw [jsStartsWith_nil h]
    rfl

theorem insideExact_nil {ms me : Str} (h : ms ≠ []) :
    insideExact ms me [] = (false, ms, me) := by
  unfold insideExact
  rw [if_neg (by
    rw [isTextCommentedExact_nil h]
    simp)]
  rw [show defaultStyles.find? (fun sty =>
      !sty.1.isEmpty && isTextCommentedExact [] sty.1 sty.2) = none from rfl]

theorem stripCommented_nil {ms me : Str} (h : ms ≠ []) :
    stripCommented ms me [] = none := by
  unfold stripCommented
  rw [if_neg (by
    rw [show jsStartsWith [] (ms ++ [' ']) = false from
      jsStartsWith_nil (by simp)]
    simp)]
  rw [if_neg (by
    rw [jsStartsWith_nil h]
    simp)]

/-- With no selection, `toggleComment` reduces to its post-detection stage
whenever the scans do not flag an enclosing pair. -/
theorem toggleComment_noSel_reduce (cfg : Str × Str) (wo : Bool)
    (st : EditorState) (hsel : st.anchor = st.head)
    (hdet : (detectScan st.lines false st.head st.head st.head
      (jsTrim cfg.1) (jsTrim cfg.2)).isComment = false) :
    toggleComment cfg wo st =
      afterDetect st (jsTrim cfg.1) (jsTrim cfg.2) [] false wo
        st.head st.head st.head := by
  unfold toggleComment
  simp only [getSel_eq_nil hsel, hsel, posMin_self, posMax_self,
    List.isEmpty_nil, Bool.not_true, Bool.false_and, Bool.false_eq_true,
    if_false, hdet, Bool.false_and]

/-- The strip/insert tail on a bare-cursor target with nothing detected:
inserts `start + two spaces + end` at the cursor and puts the cursor between
the two spaces. -/
theorem stripOrInsert_bareCursor (st : EditorState) (ms me : Str) (c : Pos)
    (line : Str) (wb : Option (Nat × Nat))
    (hms : ms ≠ []) (hmsn : '\n' ∉ ms) (hmen : '\n' ∉ me)
    (hne : st.lines ≠ []) (hnl : ∀ l ∈ st.lines, '\n' ∉ l)
    (hcv : validPos st.lines c) :
    stripOrInsert st ms me false false wb line [] c c c =
      ⟨st.lines.set c.line
        ((lineAt st.lines c.line).take c.ch ++
          (ms ++ ' ' :: ' ' :: me) ++
          (lineAt st.lines c.line).drop c.ch),
        ⟨c.line, c.ch + ms.length + 1⟩,
        ⟨c.line, c.ch + ms.length + 1⟩⟩ := by
  have hcomNl : '\n' ∉ ms ++ ' ' :: ' ' :: me := by
    refine noNl_append hmsn ?_
    intro hm
    rcases List.mem_cons.mp hm with hm | hm
    · cases hm
    · rcases List.mem_cons.mp hm with hm | hm
      · cases hm
      · exact hmen hm
  have hrr : replaceRange st.lines c c (ms ++ ' ' :: ' ' :: me) =
      st.lines.set c.line
        ((lineAt st.lines c.line).take c.ch ++
          (ms ++ ' ' :: ' ' :: me) ++
          (lineAt st.lines c.line).drop c.ch) := by
    rcases c with ⟨cl, cc⟩
    exact replaceRange_sameLine hcv.1 hnl hcomNl
  have hlen' : (st.lines.set c.line
      ((lineAt st.lines c.line).take c.ch ++
        (ms ++ ' ' :: ' ' :: me) ++
        (lineAt st.lines c.line).drop c.ch)).length = st.lines.length :=
    List.length_set _ _ _
  have hvalid : validPos
      (st.lines.set c.line
        ((lineAt st.lines c.line).take c.ch ++
          (ms ++ ' ' :: ' ' :: me) ++
          (lineAt st.lines c.line).drop c.ch))
      ⟨c.line, c.ch + ms.length + 1⟩ := by
    constructor
    · simp only [hlen']
      exact hcv.1
    · rw [show (⟨c.line, c.ch + ms.length + 1⟩ : Pos).line = c.line from rfl]
      rw [lineAt_set_self hcv.1]
      have h1 : ((lineAt st.lines c.line).take c.ch).length = c.ch := by
        rw [List.length_take]
        exact Nat.min_eq_left hcv.2
      simp only [List.length_append, h1, List.length_cons]
      omega
  unfold stripOrInsert
  rcases wb with _ | ⟨ws, we⟩ <;>
  · simp only [insideExact_nil hms, stripCommented_nil hms, Option.isSome_none,
      Bool.or_false, Bool.false_eq_true, if_false, Bool.not_false,
      List.isEmpty_nil, Bool.and_true, if_true,
      show jsTrim ([] : Str) = [] from rfl]
    rw [hrr]
    rw [clampCursorPos_id (set_ne_nil hne _ _) hvalid]
    rw [clampCursorPos_id (set_ne_nil hne _ _) hvalid]
    rw [if_pos rfl]

/-- CLAIM C6 — for a bare cursor target (no selection and no word at the
cursor) with no enclosing marker pair found by any of the detection stages,
`toggleComment` inserts exactly `start + two spaces + end` at the cursor
and places the cursor exactly between the two inserted spaces (the markers
here are the normalized — trimmed — configured markers, which is what the
engine inserts). -/
theorem toggleComment_bareCursor_insert (cfg : Str × Str) (wo : Bool)
    (st : EditorState)
    (hwf : wfState st) (hsel : st.anchor = st.head)
    (hms : jsTrim cfg.1 ≠ [])
    (hmsn : '\n' ∉ jsTrim cfg.1) (hmen : '\n' ∉ jsTrim cfg.2)
    (hwb : getWordBounds (lineAt st.lines st.head.line) st.head.ch = none)
    (hdet : (detectScan st.lines false st.head st.head st.head
      (jsTrim cfg.1) (jsTrim cfg.2)).isComment = false)
    (hrc : (removalCheck st.lines (jsTrim cfg.1) (jsTrim cfg.2) [] false
      false none (lineAt st.lines st.head.line) [] st.head st.head).inside
      = false) :
    toggleComment cfg wo st =
      ⟨st.lines.set st.head.line
        ((lineAt st.lines st.head.line).take st.head.ch ++
          (jsTrim cfg.1 ++ ' ' :: ' ' :: jsTrim cfg.2) ++
          (lineAt st.lines st.head.line).drop st.head.ch),
        ⟨st.head.line, st.head.ch + (jsTrim cfg.1).length + 1⟩,
        ⟨st.head.line, st.head.ch + (jsTrim cfg.1).length + 1⟩⟩ := by
  rw [toggleComment_noSel_reduce cfg wo st hsel hdet]
  unfold afterDetect
  simp only [hwb, decideUseWord_wbnone hwb, hrc, Bool.false_eq_true,
    if_false]
  rw [show resolveTargetT [] false false none (lineAt st.lines st.head.line)
    st.head st.head st.head = ([], st.head, st.head) from rfl]
  dsimp only
  rw [hrc]
  rw [if_neg (by simp)]
  exact stripOrInsert_bareCursor st (jsTrim cfg.1) (jsTrim cfg.2) st.head
    (lineAt st.lines st.head.line) none hms hmsn hmen hwf.1 hwf.2.1 hwf.2.2.2

/-- Witness for C6: empty document line, cursor at the origin, markers
`%%`/`%%`: the toggle inserts `%%␣␣%%` and the cursor lands between the two
spaces (scenario 5 of the specification). -/
theorem toggleComment_bareCursor_insert_witness :
    toggleComment ("%%".toList, "%%".toList) false
        ⟨[("" : String).toList], ⟨0, 0⟩, ⟨0, 0⟩⟩ =
      ⟨["%%  %%".toList], ⟨0, 3⟩, ⟨0, 3⟩⟩ := by
  have h := toggleComment_bareCursor_insert ("%%".toList, "%%".toList) false
    ⟨[("" : String).toList], ⟨0, 0⟩, ⟨0, 0⟩⟩
    ⟨by decide, by decide, ⟨by decide, by decide⟩, ⟨by decide, by decide⟩⟩
    rfl (by decide) (by decide) (by decide) (by decide) (by decide) (by decide)
  rw [h]
  rfl

/-- No fallback style with both delimiters matches `s` by
startsWith/endsWith. -/
def noStyleMatch (s : Str) : Prop :=
  defaultStyles.find? (fun sty =>
    !sty.1.isEmpty && !sty.2.isEmpty && jsStartsWith s sty.1 &&
      jsEndsWith s sty.2) = none

theorem removalCheck_noSel_false (lines : List Str) (ms me : Str)
    (uw : Bool) (wb : Option (Nat × Nat)) (line text : Str) (f t : Pos)
    (hLine : (jsStartsWith line ms && jsEndsWith line me) = false)
    (hLineSty : noStyleMatch line)
    (hText : (jsStartsWith text ms && jsEndsWith text me) = false)
    (hTextSty : noStyleMatch text) :
    (removalCheck lines ms me [] false uw wb line text f t).inside = false := by
  unfold noStyleMatch at hLineSty hTextSty
  unfold removalCheck
  rw [if_neg (by simp)]
  have hLineC : (!ms.isEmpty && !me.isEmpty && jsStartsWith line ms &&
      jsEndsWith line me) = false := by
    rcases Bool.and_eq_false_iff.mp hLine with h | h <;> simp [h]
  have hTextC : (!ms.isEmpty && !me.isEmpty && jsStartsWith text ms &&
      jsEndsWith text me) = false := by
    rcases Bool.and_eq_false_iff.mp hText with h | h <;> simp [h]
  by_cases hw : (uw && wb.isSome) = true
  · rw [if_pos hw]
    simp only [hLineC, hTextC, hLineSty, hTextSty, Bool.false_eq_true,
      if_false]
  · rw [if_neg hw]
    simp only [hLineC, hLineSty, Bool.false_eq_true, if_false]

theorem wordChar_not_ws {c : Char} (h : isWordChar c = true) :
    isWs c = false := by
  cases hw : isWs c with
  | false => rfl
  | true =>
    exfalso
    simp only [isWs, Bool.or_eq_true, decide_eq_true_eq] at hw
    have h6 : c = ' ' ∨ c = '\t' ∨ c = '\n' ∨ c = '\r' ∨ c = '\x0b' ∨
        c = '\x0c' := by tauto
    rcases h6 with h1 | h1 | h1 | h1 | h1 | h1 <;>
      (subst h1; exact absurd h (by decide))

theorem jsTrim_eq_self_of_forall {s : Str}
    (h : ∀ c ∈ s, isWs c = false) : jsTrim s = s := by
  refine jsTrim_eq_self ?_ ?_
  · intro hne
    exact h _ (List.head_mem hne)
  · intro hne
    exact h _ (List.getLast_mem hne)

theorem jsSliceN_mem_getD {line : Str} {ws we : Nat} {c : Char}
    (hc : c ∈ jsSliceN line ws we) :
    ∃ k, ws ≤ k ∧ k < we ∧ k < line.length ∧ line.getD k ' ' = c := by
  unfold jsSliceN at hc
  rcases List.mem_iff_getElem.mp hc with ⟨j, hj, hcj⟩
  refine ⟨ws + j, by omega, ?_, ?_, ?_⟩
  · have := hj
    simp only [List.length_drop, List.length_take] at this
    omega
  · have := hj
    simp only [List.length_drop, List.length_take] at this
    omega
  · rw [List.getElem_drop] at hcj
    rw [List.getElem_take] at hcj
    rw [List.getD_eq_getElem?_getD]
    rw [List.getElem?_eq_getElem]
    exact hcj

/-- The strip/insert tail on a word target with nothing detected: wraps the
word with the markers and single separator spaces and puts the cursor just
after `start + space`. -/
theorem stripOrInsert_word (st : EditorState) (ms me : Str) (c : Pos)
    (line text : Str) (ws we : Nat)
    (hmsn : '\n' ∉ ms) (hmen : '\n' ∉ me)
    (hne : st.lines ≠ []) (hnl : ∀ l ∈ st.lines, '\n' ∉ l)
    (hcl : c.line < st.lines.length)
    (hline : line = lineAt st.lines c.line)
    (htext : text = jsSliceN line ws we)
    (hwse : ws ≤ we) (hwe : we ≤ line.length)
    (htne : text ≠ [])
    (htrim : jsTrim text = text)
    (hins : (insideExact ms me text).1 = false)
    (hstrip : stripCommented ms me text = none) :
    stripOrInsert st ms me false true (some (ws, we)) line text
        ⟨c.line, ws⟩ ⟨c.line, we⟩ c =
      ⟨st.lines.set c.line
          (line.take ws ++ buildCommented ms me text ++ line.drop we),
        ⟨c.line, ws + ms.length + 1⟩, ⟨c.line, ws + ms.length + 1⟩⟩ := by
  have hLineNl : '\n' ∉ line := by
    rw [hline]
    exact lineAt_noNl hnl c.line
  have hTextNl : '\n' ∉ text := by
    rw [htext]
    unfold jsSliceN
    exact noNl_drop (noNl_take hLineNl we) ws
  have hcomNl : '\n' ∉ buildCommented ms me text := by
    unfold buildCommented
    refine noNl_append hmsn ?_
    intro hm
    rcases List.mem_cons.mp hm with hm | hm
    · cases hm
    · rcases List.mem_append.mp hm with hm | hm
      · exact hTextNl hm
      · rcases List.mem_cons.mp hm with hm | hm
        · cases hm
        · exact hmen hm
  have hrr : replaceRange st.lines ⟨c.line, ws⟩ ⟨c.line, we⟩
      (buildCommented ms me text) =
      st.lines.set c.line
        (line.take ws ++ buildCommented ms me text ++ line.drop we) := by
    rw [replaceRange_sameLine hcl hnl hcomNl]
    rw [← hline]
  have hlen' : (st.lines.set c.line
      (line.take ws ++ buildCommented ms me text ++ line.drop we)).length =
      st.lines.length := List.length_set _ _ _
  have hvalid : validPos
      (st.lines.set c.line
        (line.take ws ++ buildCommented ms me text ++ line.drop we))
      ⟨c.line, ws + ms.length + 1⟩ := by
    constructor
    · simp only [hlen']
      exact hcl
    · rw [show (⟨c.line, ws + ms.length + 1⟩ : Pos).line = c.line from rfl]
      rw [lineAt_set_self hcl]
      have h1 : (line.take ws).length = ws := by
        rw [List.length_take]
        omega
      have h2 : 1 ≤ (buildCommented ms me text).length - ms.length := by
        unfold buildCommented
        simp only [List.length_append, List.length_cons]
        omega
      simp only [List.length_append, h1]
      unfold buildCommented
      simp only [List.length_append, List.length_cons]
      omega
  have hie : text.isEmpty = false := by
    cases htt : text with
    | nil => exact absurd htt htne
    | cons a b => rfl
  subst htext
  unfold stripOrInsert
  simp only [hins, hstrip, hie, htrim, hrr, Option.isSome_none,
    Bool.or_false, Bool.false_eq_true, if_false, if_true, Bool.not_false,
    Bool.and_false, Bool.true_and]
  rw [clampCursorPos_id (set_ne_nil hne _ _) hvalid]
  rw [clampCursorPos_id (set_ne_nil hne _ _) hvalid]
  rw [if_pos rfl]

theorem jsSliceN_length {line : Str} {ws we : Nat} (hwe : we ≤ line.length) :
    (jsSliceN line ws we).length = we - ws := by
  unfold jsSliceN
  rw [List.length_drop, List.length_take]
  omega

/-- The word text of a located run consists of word characters only, so
trimming it is the identity. -/
theorem wordText_trim_id {line : Str} {ws we : Nat}
    (hrun : isWordRun line ws we) :
    jsTrim (jsSliceN line ws we) = jsSliceN line ws we := by
  refine jsTrim_eq_self_of_forall ?_
  intro c hc
  rcases jsSliceN_mem_getD hc with ⟨k, hk1, hk2, _, hk4⟩
  rw [← hk4]
  exact wordChar_not_ws (hrun.2.2.1 k hk1 hk2)

/-- CLAIM C4 (amended) — after a successful word-target insert, the word's
original text (equal to its trimmed text, since words contain no
whitespace) appears verbatim between the inserted start and end markers,
padded by exactly one separator space on each side; in general the engine
wraps the *trimmed* target text, as the counterexample for selections with
surrounding whitespace shows. -/
theorem toggleComment_word_insert (cfg : Str × Str) (wo : Bool)
    (st : EditorState) (ws we : Nat)
    (hwf : wfState st) (hsel : st.anchor = st.head)
    (_hms : jsTrim cfg.1 ≠ [])
    (hmsn : '\n' ∉ jsTrim cfg.1) (hmen : '\n' ∉ jsTrim cfg.2)
    (hwb : getWordBounds (lineAt st.lines st.head.line) st.head.ch =
      some (ws, we))
    (huw : decideUseWord wo false (lineAt st.lines st.head.line)
      st.head.ch = true)
    (hdet : (detectScan st.lines false st.head st.head st.head
      (jsTrim cfg.1) (jsTrim cfg.2)).isComment = false)
    (hLine : (jsStartsWith (lineAt st.lines st.head.line) (jsTrim cfg.1) &&
      jsEndsWith (lineAt st.lines st.head.line) (jsTrim cfg.2)) = false)
    (hLineSty : noStyleMatch (lineAt st.lines st.head.line))
    (hText : (jsStartsWith (jsSliceN (lineAt st.lines st.head.line) ws we)
        (jsTrim cfg.1) &&
      jsEndsWith (jsSliceN (lineAt st.lines st.head.line) ws we)
        (jsTrim cfg.2)) = false)
    (hTextSty : noStyleMatch (jsSliceN (lineAt st.lines st.head.line) ws we))
    (hins : (insideExact (jsTrim cfg.1) (jsTrim cfg.2)
      (jsSliceN (lineAt st.lines st.head.line) ws we)).1 = false)
    (hstrip : stripCommented (jsTrim cfg.1) (jsTrim cfg.2)
      (jsSliceN (lineAt st.lines st.head.line) ws we) = none) :
    toggleComment cfg wo st =
      ⟨st.lines.set st.head.line
          ((lineAt st.lines st.head.line).take ws ++
            (jsTrim cfg.1 ++ ' ' ::
              (jsSliceN (lineAt st.lines st.head.line) ws we ++
                ' ' :: jsTrim cfg.2)) ++
            (lineAt st.lines st.head.line).drop we),
        ⟨st.head.line, ws + (jsTrim cfg.1).length + 1⟩,
        ⟨st.head.line, ws + (jsTrim cfg.1).length + 1⟩⟩ := by
  have hrun := getWordBounds_some hwb
  have hwse : ws ≤ we := by
    have := hrun.1.1
    omega
  have hwe : we ≤ (lineAt st.lines st.head.line).length := hrun.1.2.1
  have htne : jsSliceN (lineAt st.lines st.head.line) ws we ≠ [] := by
    intro h
    have hl := @jsSliceN_length (lineAt st.lines st.head.line) ws we hwe
    rw [h] at hl
    have := hrun.1.1
    simp at hl
    omega
  have htrim := wordText_trim_id hrun.1
  rw [toggleComment_noSel_reduce cfg wo st hsel hdet]
  unfold afterDetect
  simp only [hwb, huw]
  rw [show resolveTargetT [] false true (some (ws, we))
      (lineAt st.lines st.head.line) st.head st.head st.head =
      (jsSliceN (lineAt st.lines st.head.line) ws we,
        ⟨st.head.line, ws⟩, ⟨st.head.line, we⟩) from rfl]
  dsimp only
  rw [removalCheck_noSel_false st.lines (jsTrim cfg.1) (jsTrim cfg.2) true
    (some (ws, we)) (lineAt st.lines st.head.line)
    (jsSliceN (lineAt st.lines st.head.line) ws we)
    ⟨st.head.line, ws⟩ ⟨st.head.line, we⟩ hLine hLineSty hText hTextSty]
  rw [if_neg (by simp)]
  exact stripOrInsert_word st (jsTrim cfg.1) (jsTrim cfg.2) st.head
    (lineAt st.lines st.head.line)
    (jsSliceN (lineAt st.lines st.head.line) ws we) ws we hmsn hmen
    hwf.1 hwf.2.1 hwf.2.2.2.1 rfl rfl hwse hwe htne htrim hins hstrip

/-- Witness for the amended C4: `foo bar`, cursor inside `bar`, markers
`%%`/`%%` produce `foo %% bar %%` with the word text verbatim between the
markers (scenario 1 of the specification). -/
theorem toggleComment_word_insert_witness :
    toggleComment ("%%".toList, "%%".toList) false
        ⟨["foo bar".toList], ⟨0, 5⟩, ⟨0, 5⟩⟩ =
      ⟨["foo %% bar %%".toList], ⟨0, 7⟩, ⟨0, 7⟩⟩ := by
  have h := toggleComment_word_insert ("%%".toList, "%%".toList) false
    ⟨["foo bar".toList], ⟨0, 5⟩, ⟨0, 5⟩⟩ 4 7
    ⟨by decide, by decide, ⟨by decide, by decide⟩, ⟨by decide, by decide⟩⟩
    rfl (by decide) (by decide) (by decide) (by decide) (by decide)
    (by decide) (by decide) (by unfold noStyleMatch; decide) (by decide)
    (by unfold noStyleMatch; decide) (by decide) (by decide)
  rw [h]
  rfl

theorem set_ne_of_length_ne {lines : List Str} {i : Nat} {x : Str}
    (hi : i < lines.length) (hx : x.length ≠ (lineAt lines i).length) :
    lines.set i x ≠ lines := by
  intro h
  have h2 := congrArg (fun ls => (lineAt ls i).length) h
  simp only at h2
  rw [lineAt_set_self hi] at h2
  exact hx h2

/-- CLAIM C3 (amended) — for cursor and word targets (no selection), when no
detection stage finds an enclosing pair and the removal checks all fail,
`toggleComment` with a non-empty (trimmed) start marker always proceeds to
the insert path and modifies the document; it never silently returns.  (For
selection targets the boundary guard can silently return — see the
counterexample.) -/
theorem toggleComment_noSel_detectionMiss_edits (cfg : Str × Str) (wo : Bool)
    (st : EditorState)
    (hwf : wfState st) (hsel : st.anchor = st.head)
    (hms : jsTrim cfg.1 ≠ [])
    (hmsn : '\n' ∉ jsTrim cfg.1) (hmen : '\n' ∉ jsTrim cfg.2)
    (hdet : (detectScan st.lines false st.head st.head st.head
      (jsTrim cfg.1) (jsTrim cfg.2)).isComment = false)
    (hLine : (jsStartsWith (lineAt st.lines st.head.line) (jsTrim cfg.1) &&
      jsEndsWith (lineAt st.lines st.head.line) (jsTrim cfg.2)) = false)
    (hLineSty : noStyleMatch (lineAt st.lines st.head.line))
    (hText : (jsStartsWith
        (resolveTargetT [] false
          (decideUseWord wo false (lineAt st.lines st.head.line) st.head.ch)
          (getWordBounds (lineAt st.lines st.head.line) st.head.ch)
          (lineAt st.lines st.head.line) st.head st.head st.head).1
        (jsTrim cfg.1) &&
      jsEndsWith
        (resolveTargetT [] false
          (decideUseWord wo false (lineAt st.lines st.head.line) st.head.ch)
          (getWordBounds (lineAt st.lines st.head.line) st.head.ch)
          (lineAt st.lines st.head.line) st.head st.head st.head).1
        (jsTrim cfg.2)) = false)
    (hTextSty : noStyleMatch
      (resolveTargetT [] false
        (decideUseWord wo false (lineAt st.lines st.head.line) st.head.ch)
        (getWordBounds (lineAt st.lines st.head.line) st.head.ch)
        (lineAt st.lines st.head.line) st.head st.head st.head).1)
    (hins : (insideExact (jsTrim cfg.1) (jsTrim cfg.2)
      (resolveTargetT [] false
        (decideUseWord wo false (lineAt st.lines st.head.line) st.head.ch)
        (getWordBounds (lineAt st.lines st.head.line) st.head.ch)
        (lineAt st.lines st.head.line) st.head st.head st.head).1).1 = false)
    (hstrip : stripCommented (jsTrim cfg.1) (jsTrim cfg.2)
      (resolveTargetT [] false
        (decideUseWord wo false (lineAt st.lines st.head.line) st.head.ch)
        (getWordBounds (lineAt st.lines st.head.line) st.head.ch)
        (lineAt st.lines st.head.line) st.head st.head st.head).1 = none) :
    (toggleComment cfg wo st).lines ≠ st.lines := by
  have hms1 : 1 ≤ (jsTrim cfg.1).length := List.length_pos.mpr hms
  have hchv : st.head.ch ≤ (lineAt st.lines st.head.line).length :=
    hwf.2.2.2.2
  have hclv : st.head.line < st.lines.length := hwf.2.2.2.1
  cases hwb : getWordBounds (lineAt st.lines st.head.line) st.head.ch with
  | none =>
    have huw := @decideUseWord_wbnone wo _ _ hwb
    rw [toggleComment_noSel_reduce cfg wo st hsel hdet]
    unfold afterDetect
    simp only [hwb, huw]
    rw [show resolveTargetT [] false false none
        (lineAt st.lines st.head.line) st.head st.head st.head =
        ([], st.head, st.head) from rfl]
    rw [hwb, huw] at hText hTextSty
    rw [show resolveTargetT [] false false none
        (lineAt st.lines st.head.line) st.head st.head st.head =
        ([], st.head, st.head) from rfl] at hText hTextSty
    dsimp only
    dsimp only at hText hTextSty
    rw [removalCheck_noSel_false st.lines (jsTrim cfg.1) (jsTrim cfg.2)
      false none (lineAt st.lines st.head.line) [] st.head st.head
      hLine hLineSty hText hTextSty]
    rw [if_neg (by simp)]
    rw [stripOrInsert_bareCursor st (jsTrim cfg.1) (jsTrim cfg.2) st.head
      (lineAt st.lines st.head.line) none hms hmsn hmen hwf.1 hwf.2.1
      hwf.2.2.2]
    apply set_ne_of_length_ne hclv
    simp only [List.length_append, List.length_take, List.length_drop,
      List.length_cons]
    omega
  | some p =>
    rcases p with ⟨ws, we⟩
    have hrun := getWordBounds_some hwb
    have hwse : ws ≤ we := by have := hrun.1.1; omega
    have hwe : we ≤ (lineAt st.lines st.head.line).length := hrun.1.2.1
    cases huw : decideUseWord wo false (lineAt st.lines st.head.line)
        st.head.ch with
    | false =>
      rw [toggleComment_noSel_reduce cfg wo st hsel hdet]
      unfold afterDetect
      simp only [hwb, huw]
      rw [show resolveTargetT [] false false (some (ws, we))
          (lineAt st.lines st.head.line) st.head st.head st.head =
          ([], st.head, st.head) from rfl]
      rw [hwb, huw] at hText hTextSty
      rw [show resolveTargetT [] false false (some (ws, we))
          (lineAt st.lines st.head.line) st.head st.head st.head =
          ([], st.head, st.head) from rfl] at hText hTextSty
      dsimp only
      dsimp only at hText hTextSty
      rw [removalCheck_noSel_false st.lines (jsTrim cfg.1) (jsTrim cfg.2)
        false (some (ws, we)) (lineAt st.lines st.head.line) [] st.head
        st.head hLine hLineSty hText hTextSty]
      rw [if_neg (by simp)]
      rw [stripOrInsert_bareCursor st (jsTrim cfg.1) (jsTrim cfg.2) st.head
        (lineAt st.lines st.head.line) (some (ws, we)) hms hmsn hmen hwf.1
        hwf.2.1 hwf.2.2.2]
      apply set_ne_of_length_ne hclv
      simp only [List.length_append, List.length_take, List.length_drop,
        List.length_cons]
      omega
    | true =>
      have htne : jsSliceN (lineAt st.lines st.head.line) ws we ≠ [] := by
        intro h
        have hl := @jsSliceN_length (lineAt st.lines st.head.line) ws we
          hwe
        rw [h] at hl
        have := hrun.1.1
        simp at hl
        omega
      have htrim := wordText_trim_id hrun.1
      rw [toggleComment_noSel_reduce cfg wo st hsel hdet]
      unfold afterDetect
      simp only [hwb, huw]
      rw [show resolveTargetT [] false true (some (ws, we))
          (lineAt st.lines st.head.line) st.head st.head st.head =
          (jsSliceN (lineAt st.lines st.head.line) ws we,
            ⟨st.head.line, ws⟩, ⟨st.head.line, we⟩) from rfl]
      rw [hwb, huw] at hText hTextSty hins hstrip
      rw [show resolveTargetT [] false true (some (ws, we))
          (lineAt st.lines st.head.line) st.head st.head st.head =
          (jsSliceN (lineAt st.lines st.head.line) ws we,
            ⟨st.head.line, ws⟩, ⟨st.head.line, we⟩) from rfl]
        at hText hTextSty hins hstrip
      dsimp only
      dsimp only at hText hTextSty hins hstrip
      rw [removalCheck_noSel_false st.lines (jsTrim cfg.1) (jsTrim cfg.2)
        true (some (ws, we)) (lineAt st.lines st.head.line)
        (jsSliceN (lineAt st.lines st.head.line) ws we)
        ⟨st.head.line, ws⟩ ⟨st.head.line, we⟩ hLine hLineSty hText hTextSty]
      rw [if_neg (by simp)]
      rw [stripOrInsert_word st (jsTrim cfg.1) (jsTrim cfg.2) st.head
        (lineAt st.lines st.head.line)
        (jsSliceN (lineAt st.lines st.head.line) ws we) ws we hmsn hmen
        hwf.1 hwf.2.1 hclv rfl rfl hwse hwe htne htrim hins hstrip]
      apply set_ne_of_length_ne hclv
      have hsl := @jsSliceN_length (lineAt st.lines st.head.line) ws we
        hwe
      unfold buildCommented
      simp only [List.length_append, List.length_take, List.length_drop,
        List.length_cons, hsl]
      omega

/-- Witness for the amended C3: a bare cursor on the line `xyz` with markers
`%%`/`%%` and nothing detected: the document is modified. -/
theorem toggleComment_noSel_detectionMiss_edits_witness :
    (toggleComment ("%%".toList, "%%".toList) false
        ⟨["xyz".toList], ⟨0, 0⟩, ⟨0, 0⟩⟩).lines ≠ ["xyz".toList] :=
  toggleComment_noSel_detectionMiss_edits ("%%".toList, "%%".toList) false
    ⟨["xyz".toList], ⟨0, 0⟩, ⟨0, 0⟩⟩
    ⟨by decide, by decide, ⟨by decide, by decide⟩, ⟨by decide, by decide⟩⟩
    rfl (by decide) (by decide) (by decide) (by decide) (by decide)
    (by unfold noStyleMatch; decide) (by decide)
    (by unfold noStyleMatch; decide) (by decide) (by decide)

/-! ## The selection boundary guard -/

theorem jsIncludes_isInf {s pat : Str} (h : jsIncludes s pat = true) :
    pat <:+: s := by
  unfold jsIncludes at h
  cases hfm : firstMatch pat s with
  | none => rw [hfm] at h; cases h
  | some i => exact matchAt_isInf (firstMatch_some hfm).1

theorem jsSlice_isInf (s : Str) (a b : Int) : jsSlice s a b <:+: s := by
  unfold jsSlice
  exact ((List.drop_suffix _ _).isInfix).trans ((List.take_prefix _ _).isInfix)

theorem jsSliceN_isInf (s : Str) (a b : Nat) : jsSliceN s a b <:+: s := by
  unfold jsSliceN
  exact ((List.drop_suffix _ _).isInfix).trans ((List.take_prefix _ _).isInfix)

theorem getRange_isInf (lines : List Str) (f t : Pos) :
    getRange lines f t <:+: joinNl lines := by
  unfold getRange
  exact ((List.take_prefix _ _).isInfix).trans ((List.drop_suffix _ _).isInfix)

theorem getSel_isInf (st : EditorState) : getSel st <:+: joinNl st.lines :=
  getRange_isInf _ _ _

theorem lineAt_isInf (lines : List Str) (i : Nat) :
    lineAt lines i <:+: joinNl lines := by
  rcases Nat.lt_or_ge i lines.length with h | h
  · induction lines generalizing i with
    | nil => simp at h
    | cons l rest ih =>
      cases i with
      | zero =>
        rw [show lineAt (l :: rest) 0 = l from rfl]
        cases rest with
        | nil => exact List.infix_rfl
        | cons r rs =>
          rw [show joinNl (l :: r :: rs) = l ++ '\n' :: joinNl (r :: rs)
            from rfl]
          exact ((List.prefix_append l _).isInfix)
      | succ i' =>
        have hi' : i' < rest.length := by simpa using h
        have hrest : lineAt rest i' <:+: joinNl rest := ih i' hi'
        cases rest with
        | nil => simp at hi'
        | cons r rs =>
          rw [show lineAt (l :: r :: rs) (i' + 1) = lineAt (r :: rs) i'
            from rfl]
          rw [show joinNl (l :: r :: rs) = l ++ '\n' :: joinNl (r :: rs)
            from rfl]
          refine (hrest.trans ?_)
          exact ⟨l ++ ['\n'], [], by simp⟩
  · rw [show lineAt lines i = [] by
      unfold lineAt
      rw [List.getD_eq_getElem?_getD, List.getElem?_eq_none (by omega)]
      rfl]
    exact List.nil_infix

theorem jsStartsWith_isInf {s pat : Str} (h : jsStartsWith s pat = true) :
    pat <:+: s := by
  unfold jsStartsWith at h
  exact (List.isPrefixOf_iff_prefix.mp h).isInfix

theorem jsEndsWith_isInf {s pat : Str} (h : jsEndsWith s pat = true) :
    pat <:+: s := by
  unfold jsEndsWith at h
  exact (List.isSuffixOf_iff_suffix.mp h).isInfix

/-- If neither marker occurs anywhere in the document, the enhanced
selection block's boundary guard returns (`main.ts` 999–1005). -/
theorem enhanced1_none_of_noInfix (lines : List Str) (ms me sel : Str)
    (f t : Pos) (d : Detect)
    (hms : ¬ ms <:+: joinNl lines) (hme : ¬ me <:+: joinNl lines)
    (hsel : sel <:+: joinNl lines) :
    enhanced1 lines ms me sel f t d = none := by
  have hfs : foundStartB (lineAt lines f.line) sel ms f = false := by
    unfold foundStartB
    rw [show jsIncludes (jsSlice (lineAt lines f.line)
        (max 0 ((f.ch : Int) - ms.length)) ((f.ch : Int) + sel.length)) ms
        = false by
      cases hb : jsIncludes (jsSlice (lineAt lines f.line)
          (max 0 ((f.ch : Int) - ms.length)) ((f.ch : Int) + sel.length)) ms
      · rfl
      · exact absurd (((jsIncludes_isInf hb).trans
          (jsSlice_isInf _ _ _)).trans (lineAt_isInf lines f.line)) hms]
    rw [show jsIncludes sel ms = false by
      cases hb : jsIncludes sel ms
      · rfl
      · exact absurd ((jsIncludes_isInf hb).trans hsel) hms]
    simp
  have hfe : foundEndB (lineAt lines f.line) sel me f t = false := by
    unfold foundEndB
    rw [show jsIncludes (jsSlice (lineAt lines f.line) (f.ch : Int)
        (min ((lineAt lines f.line).length : Int) ((t.ch : Int) + me.length)))
        me = false by
      cases hb : jsIncludes (jsSlice (lineAt lines f.line) (f.ch : Int)
          (min ((lineAt lines f.line).length : Int)
            ((t.ch : Int) + me.length))) me
      · rfl
      · exact absurd (((jsIncludes_isInf hb).trans
          (jsSlice_isInf _ _ _)).trans (lineAt_isInf lines f.line)) hme]
    rw [show jsIncludes sel me = false by
      cases hb : jsIncludes sel me
      · rfl
      · exact absurd ((jsIncludes_isInf hb).trans hsel) hme]
    simp
  have hatS : (decide (f.ch ≤ ms.length) &&
      jsStartsWith (jsSlice (lineAt lines f.line) 0 (ms.length : Int)) ms)
      = false := by
    rw [show jsStartsWith (jsSlice (lineAt lines f.line) 0 (ms.length : Int))
        ms = false by
      cases hb : jsStartsWith (jsSlice (lineAt lines f.line) 0
          (ms.length : Int)) ms
      · rfl
      · exact absurd (((jsStartsWith_isInf hb).trans
          (jsSlice_isInf _ _ _)).trans (lineAt_isInf lines f.line)) hms]
    simp
  have hatE : (decide ((((lineAt lines f.line).length : Int) - me.length) ≤
      (t.ch : Int)) &&
      jsEndsWith (jsSliceFrom (lineAt lines f.line) (-(me.length : Int))) me)
      = false := by
    rw [show jsEndsWith (jsSliceFrom (lineAt lines f.line)
        (-(me.length : Int))) me = false by
      cases hb : jsEndsWith (jsSliceFrom (lineAt lines f.line)
          (-(me.length : Int))) me
      · rfl
      · exact absurd (((jsEndsWith_isInf hb).trans
          (jsSlice_isInf _ _ _)).trans (lineAt_isInf lines f.line)) hme]
    simp
  unfold enhanced1
  simp only [hfs, hfe, Bool.or_false, Bool.and_false, Bool.false_and,
    Bool.false_eq_true, if_false, hatS, hatE, Bool.not_false, Bool.and_true,
    Bool.and_self, if_true]

/-- CLAIM C1 (amended) — for a marker pair whose trimmed start and end are
both non-empty and a document containing neither marker anywhere, a
selection toggle is a silent no-op (the boundary guard returns before any
insert), so toggling twice trivially returns the original document and
selection; the insert-then-remove round trip never takes place, and with a
start-only marker set the round trip actively fails (see the
counterexample). -/
theorem toggleComment_selection_noMarkers_id (cfg : Str × Str) (wo : Bool)
    (st : EditorState)
    (hselB : getSel st ≠ [])
    (hms : jsTrim cfg.1 ≠ []) (hme : jsTrim cfg.2 ≠ [])
    (hmsInf : ¬ jsTrim cfg.1 <:+: joinNl st.lines)
    (hmeInf : ¬ jsTrim cfg.2 <:+: joinNl st.lines) :
    toggleComment cfg wo st = st ∧
      toggleComment cfg wo (toggleComment cfg wo st) = st := by
  have hsel' : (getSel st).isEmpty = false := by
    cases hb : getSel st with
    | nil => exact absurd hb hselB
    | cons a b => rfl
  have hms' : (jsTrim cfg.1).isEmpty = false := by
    cases hb : jsTrim cfg.1 with
    | nil => exact absurd hb hms
    | cons a b => rfl
  have hme' : (jsTrim cfg.2).isEmpty = false := by
    cases hb : jsTrim cfg.2 with
    | nil => exact absurd hb hme
    | cons a b => rfl
  have h1 : toggleComment cfg wo st = st := by
    unfold toggleComment
    simp only [hsel', hms', hme', Bool.not_false, Bool.and_self,
      eq_self_iff_true, if_true]
    rw [enhanced1_none_of_noInfix st.lines (jsTrim cfg.1) (jsTrim cfg.2)
      (getSel st) (posMin st.anchor st.head) (posMax st.anchor st.head) _
      hmsInf hmeInf (getSel_isInf st)]
  exact ⟨h1, by rw [h1, h1]⟩

/-- Witness for the amended C1: markers `%%`/`%%`, document `hello world`,
selection covering the whole line: both toggles leave the state unchanged. -/
theorem toggleComment_selection_noMarkers_id_witness :
    toggleComment ("%%".toList, "%%".toList) false
        ⟨["hello world".toList], ⟨0, 0⟩, ⟨0, 11⟩⟩ =
      ⟨["hello world".toList], ⟨0, 0⟩, ⟨0, 11⟩⟩ ∧
    toggleComment ("%%".toList, "%%".toList) false
        (toggleComment ("%%".toList, "%%".toList) false
          ⟨["hello world".toList], ⟨0, 0⟩, ⟨0, 11⟩⟩) =
      ⟨["hello world".toList], ⟨0, 0⟩, ⟨0, 11⟩⟩ :=
  toggleComment_selection_noMarkers_id ("%%".toList, "%%".toList) false
    ⟨["hello world".toList], ⟨0, 0⟩, ⟨0, 11⟩⟩
    (by decide) (by decide) (by decide) (by decide) (by decide)

/-! ## Empty marker set -/

theorem set_lineAt_id {lines : List Str} {i : Nat} (h : i < lines.length) :
    lines.set i (lineAt lines i) = lines := by
  apply List.ext_getElem (by simp)
  intro n h1 h2
  rw [List.getElem_set]
  split
  · rename_i he
    subst he
    unfold lineAt
    rw [List.getD_eq_getElem?_getD, List.getElem?_eq_getElem h]
    rfl
  · rfl

theorem replaceRange_point_nil {lines : List Str} {c : Pos}
    (hc : c.line < lines.length) (hn : ∀ l ∈ lines, '\n' ∉ l) :
    replaceRange lines c c [] = lines := by
  rcases c with ⟨cl, cc⟩
  rw [replaceRange_sameLine hc hn (by simp)]
  rw [show (lineAt lines cl).take cc ++ [] ++ (lineAt lines cl).drop cc =
      lineAt lines cl by
    rw [List.append_nil, List.take_append_drop]]
  exact set_lineAt_id hc

/-- The removal-precedence checks with both markers empty, no selection, no
word: only the fallback-style check against the cursor's line remains. -/
theorem removalCheck_emptyMs (lines : List Str) (u : Bool) (line : Str)
    (f t : Pos) :
    removalCheck lines [] [] [] false u none line [] f t =
      (match defaultStyles.find? (fun sty =>
          !sty.1.isEmpty && !sty.2.isEmpty && jsStartsWith line sty.1 &&
            jsEndsWith line sty.2) with
        | some sty => ⟨true, sty.1, sty.2, line⟩
        | none => ⟨false, [], [], []⟩) := by
  unfold removalCheck
  rw [if_neg (by simp)]
  rw [if_neg (by simp)]
  simp only [List.isEmpty_nil, Bool.not_true, Bool.false_and,
    Bool.false_eq_true, if_false]

/-- The strip/insert tail with both markers empty on a bare cursor: the
empty strip of the empty target replaces nothing and the cursor stays. -/
theorem stripOrInsert_emptyMarkers (st : EditorState) (line : Str) (c : Pos)
    (hne : st.lines ≠ []) (hnl : ∀ l ∈ st.lines, '\n' ∉ l)
    (hcv : validPos st.lines c) :
    stripOrInsert st [] [] false false none line [] c c c =
      ⟨st.lines, c, c⟩ := by
  have hrr : replaceRange st.lines c c [] = st.lines :=
    replaceRange_point_nil hcv.1 hnl
  unfold stripOrInsert
  simp only [Bool.false_eq_true, if_false,
    show insideExact [] [] [] = (false, [], ([] : Str)) from rfl,
    show stripCommented ([] : Str) ([] : Str) ([] : Str) = some [] from rfl,
    Option.isSome_some, Bool.or_true, if_true, Option.getD_some]
  rw [hrr]
  rw [clampCursorPos_id hne hcv]
  rw [if_pos (clampCursorPos_id hne hcv)]

/-- CLAIM C2 (amended) — with a marker set whose start AND end both trim to
the empty string, a bare-cursor toggle with no word at the cursor performs
no mutation and returns the state unchanged; this is not a guarded no-op
but the accidental fixed point of the strip path (stripping empty markers
from the empty target rewrites nothing).  With an empty start but
non-empty end the engine does mutate the document (see the
counterexample), so the spec's unconditional `start == ""` no-op is
wrong. -/
theorem toggleComment_emptyMarkers_cursor_noop (cfg : Str × Str) (wo : Bool)
    (st : EditorState)
    (hwf : wfState st) (hsel : st.anchor = st.head)
    (hms : jsTrim cfg.1 = []) (hme : jsTrim cfg.2 = [])
    (hwb : getWordBounds (lineAt st.lines st.head.line) st.head.ch = none) :
    toggleComment cfg wo st = st := by
  have hdet : (detectScan st.lines false st.head st.head st.head
      (jsTrim cfg.1) (jsTrim cfg.2)).isComment = false := by
    rw [hms]
    rfl
  rw [toggleComment_noSel_reduce cfg wo st hsel hdet]
  rw [hms, hme]
  unfold afterDetect
  simp only [hwb, decideUseWord_wbnone hwb]
  rw [show resolveTargetT [] false false none (lineAt st.lines st.head.line)
    st.head st.head st.head = ([], st.head, st.head) from rfl]
  dsimp only
  rw [removalCheck_emptyMs]
  cases hfind : defaultStyles.find? (fun sty =>
      !sty.1.isEmpty && !sty.2.isEmpty &&
        jsStartsWith (lineAt st.lines st.head.line) sty.1 &&
        jsEndsWith (lineAt st.lines st.head.line) sty.2) with
  | some sty =>
    dsimp only
    rw [if_pos rfl]
    rfl
  | none =>
    dsimp only
    rw [if_neg (by simp)]
    rw [stripOrInsert_emptyMarkers st (lineAt st.lines st.head.line) st.head
      hwf.1 hwf.2.1 hwf.2.2.2]
    rcases st with ⟨lines, a, h⟩
    cases hsel
    rfl

/-- Witness for the amended C2: both markers empty, empty document line,
cursor at the origin: the toggle is a no-op. -/
theorem toggleComment_emptyMarkers_cursor_noop_witness :
    toggleComment (("" : String).toList, ("" : String).toList) false
        ⟨[[]], ⟨0, 0⟩, ⟨0, 0⟩⟩ = ⟨[[]], ⟨0, 0⟩, ⟨0, 0⟩⟩ :=
  toggleComment_emptyMarkers_cursor_noop (("" : String).toList,
      ("" : String).toList) false ⟨[[]], ⟨0, 0⟩, ⟨0, 0⟩⟩
    ⟨by decide, by decide, ⟨by decide, by decide⟩, ⟨by decide, by decide⟩⟩
    rfl (by decide) (by decide) (by decide)

/-! ## Cursor-mode pair removal -/

/-- Scan-based detection with a cursor and both scans hitting the marker. -/
theorem detectScan_noSel_found (lines : List Str) (c : Pos) (ms me : Str)
    (csp cep : Pos) (hms : ms ≠ []) (hme : me ≠ [])
    (hB : scanForFirst lines c.line c.ch ms me true = some (csp, true))
    (hA : scanForFirst lines c.line c.ch me ms false = some (cep, true)) :
    detectScan lines false c c c ms me = ⟨true, some csp, some cep⟩ := by
  have hms' : ms.isEmpty = false := by
    cases ms with
    | nil => exact absurd rfl hms
    | cons a b => rfl
  have hme' : me.isEmpty = false := by
    cases me with
    | nil => exact absurd rfl hme
    | cons a b => rfl
  unfold detectScan
  simp only [hms', hme', Bool.not_false, Bool.and_self, if_true,
    Bool.false_eq_true, if_false, hB, hA]
  rfl

/-- With a cursor, both scans hitting the marker route `toggleComment`
straight into the removal path. -/
theorem toggleComment_noSel_remove_reduce (cfg : Str × Str) (wo : Bool)
    (st : EditorState) (csp cep : Pos) (hsel : st.anchor = st.head)
    (hms : jsTrim cfg.1 ≠ []) (hme : jsTrim cfg.2 ≠ [])
    (hB : scanForFirst st.lines st.head.line st.head.ch (jsTrim cfg.1)
      (jsTrim cfg.2) true = some (csp, true))
    (hA : scanForFirst st.lines st.head.line st.head.ch (jsTrim cfg.2)
      (jsTrim cfg.1) false = some (cep, true)) :
    toggleComment cfg wo st =
      removePath st (jsTrim cfg.1) (jsTrim cfg.2) st.head csp cep := by
  unfold toggleComment
  simp only [getSel_eq_nil hsel, hsel, posMin_self, posMax_self,
    List.isEmpty_nil, Bool.not_true, Bool.false_and, Bool.false_eq_true,
    if_false,
    detectScan_noSel_found st.lines st.head (jsTrim cfg.1) (jsTrim cfg.2)
      csp cep hms hme hB hA]
  rw [if_pos (by simp)]

/-- Same-line removal (`main.ts` 1075–1113) on a line of the shape
`A ++ ms ++ " " ++ B ++ " " ++ me ++ C`: the pair and its two separator
spaces are deleted and every other line is untouched. -/
theorem removePath_sameLine (st : EditorState) (ms me A B C : Str) (l : Nat)
    (f : Pos) (hl : l < st.lines.length)
    (hline : lineAt st.lines l = A ++ ms ++ [' '] ++ B ++ [' '] ++ me ++ C)
    (hE1 : jsIndexOfFrom (A ++ B ++ [' '] ++ me ++ C) (' ' :: me)
      ((A.length + B.length + 1 : Nat) : Int) = -1)
    (hE2 : jsIndexOfFrom (A ++ B ++ [' '] ++ me ++ C) me (-1) =
      ((A.length + B.length + 1 : Nat) : Int)) :
    (removePath st ms me f ⟨l, A.length⟩
      ⟨l, A.length + ms.length + 1 + B.length + 1⟩).lines =
      st.lines.set l (A ++ B ++ C) := by
  unfold removePath
  rw [if_pos rfl]
  dsimp only
  rw [hline]
  have htake : (A ++ ms ++ [' '] ++ B ++ [' '] ++ me ++ C).take A.length
      = A := by
    rw [show A ++ ms ++ [' '] ++ B ++ [' '] ++ me ++ C =
      A ++ (ms ++ [' '] ++ B ++ [' '] ++ me ++ C) by simp]
    exact List.take_left' rfl
  have hdrop : (A ++ ms ++ [' '] ++ B ++ [' '] ++ me ++ C).drop
      (A.length + (ms ++ [' ']).length) = B ++ [' '] ++ me ++ C := by
    rw [show A ++ ms ++ [' '] ++ B ++ [' '] ++ me ++ C =
      (A ++ ms ++ [' ']) ++ (B ++ [' '] ++ me ++ C) by simp]
    refine List.drop_left' ?_
    simp
  rw [htake, hdrop]
  rw [lineAt_set_self hl]
  rw [show A ++ (B ++ [' '] ++ me ++ C) = A ++ B ++ [' '] ++ me ++ C
    by simp]
  have he0 : ((A.length + ms.length + 1 + B.length + 1 : Nat) : Int) -
      ((ms ++ [' ']).length : Nat) = ((A.length + B.length + 1 : Nat) : Int)
      := by
    simp only [List.length_append, List.length_cons, List.length_nil]
    push_cast
    ring
  rw [he0, hE1]
  rw [show ((-1 : Int) == -1) = true from rfl]
  rw [if_pos rfl]
  rw [hE2]
  have htn : (((A.length + B.length + 1 : Nat) : Int)).toNat =
      A.length + B.length + 1 := Int.toNat_natCast _
  have hpos : decide ((0 : Int) < ((A.length + B.length + 1 : Nat) : Int))
      = true := by
    rw [decide_eq_true_eq]
    push_cast
    omega
  have hgd : ((A ++ B ++ [' '] ++ me ++ C).getD
      ((((A.length + B.length + 1 : Nat) : Int)).toNat - 1) '\x00' == ' ')
      = true := by
    rw [htn]
    rw [show A.length + B.length + 1 - 1 = A.length + B.length from rfl]
    rw [show A ++ B ++ [' '] ++ me ++ C = (A ++ B) ++ ([' '] ++ (me ++ C))
      by simp]
    rw [List.getD_eq_getElem?_getD]
    rw [List.getElem?_append_right (by simp)]
    simp
  rw [hpos, hgd, Bool.and_self]
  rw [if_pos rfl]
  have hne : ((((A.length + B.length + 1 : Nat) : Int) - 1 == -1)) = false :=
    beq_eq_false_iff_ne.mpr (by push_cast; omega)
  rw [hne]
  simp only [Bool.false_eq_true, if_false]
  have htn2 : (((A.length + B.length + 1 : Nat) : Int) - 1).toNat =
      A.length + B.length := by
    rw [show ((A.length + B.length + 1 : Nat) : Int) - 1 =
      ((A.length + B.length : Nat) : Int) by push_cast; ring]
    exact Int.toNat_natCast _
  rw [htn2]
  have htake2 : (A ++ B ++ [' '] ++ me ++ C).take (A.length + B.length)
      = A ++ B := by
    rw [show A ++ B ++ [' '] ++ me ++ C = (A ++ B) ++ ([' '] ++ me ++ C)
      by simp]
    refine List.take_left' ?_
    simp
  have hdrop2 : (A ++ B ++ [' '] ++ me ++ C).drop
      (A.length + B.length + (' ' :: me).length) = C := by
    rw [show A ++ B ++ [' '] ++ me ++ C = ((A ++ B) ++ ([' '] ++ me)) ++ C
      by simp]
    refine List.drop_left' ?_
    simp only [List.length_append, List.length_cons, List.length_nil]
    omega
  rw [htake2, hdrop2]
  rw [List.set_set]

/-- CLAIM C5 (amended) — with a CURSOR (no selection) on a line of the
shape `A ++ start ++ " " ++ B ++ " " ++ end ++ C`, when the backward scan
finds that start marker and the forward scan that end marker, and the line
tail holds no further end marker, `toggleComment` deletes exactly that
pair with its two separator spaces (the line becomes `A ++ B ++ C`) and
every other line — in particular any earlier marker pair — is
byte-for-byte intact.  With a SELECTION inside the second pair the
boundary guard makes the toggle a silent no-op instead (see the
counterexample), so the spec's selection-based claim is wrong. -/
theorem toggleComment_cursor_pair_removal (cfg : Str × Str) (wo : Bool)
    (st : EditorState) (l : Nat) (A B C : Str)
    (hsel : st.anchor = st.head)
    (hms : jsTrim cfg.1 ≠ []) (hme : jsTrim cfg.2 ≠ [])
    (hl : l < st.lines.length)
    (hline : lineAt st.lines l =
      A ++ jsTrim cfg.1 ++ [' '] ++ B ++ [' '] ++ jsTrim cfg.2 ++ C)
    (hB : scanForFirst st.lines st.head.line st.head.ch (jsTrim cfg.1)
      (jsTrim cfg.2) true = some (⟨l, A.length⟩, true))
    (hA : scanForFirst st.lines st.head.line st.head.ch (jsTrim cfg.2)
      (jsTrim cfg.1) false = some
      (⟨l, A.length + (jsTrim cfg.1).length + 1 + B.length + 1⟩, true))
    (hE1 : jsIndexOfFrom (A ++ B ++ [' '] ++ jsTrim cfg.2 ++ C)
      (' ' :: jsTrim cfg.2) ((A.length + B.length + 1 : Nat) : Int) = -1)
    (hE2 : jsIndexOfFrom (A ++ B ++ [' '] ++ jsTrim cfg.2 ++ C)
      (jsTrim cfg.2) (-1) = ((A.length + B.length + 1 : Nat) : Int)) :
    (toggleComment cfg wo st).lines = st.lines.set l (A ++ B ++ C) ∧
      ∀ j, j ≠ l → lineAt (toggleComment cfg wo st).lines j =
        lineAt st.lines j := by
  rw [toggleComment_noSel_remove_reduce cfg wo st ⟨l, A.length⟩
    ⟨l, A.length + (jsTrim cfg.1).length + 1 + B.length + 1⟩
    hsel hms hme hB hA]
  rw [removePath_sameLine st (jsTrim cfg.1) (jsTrim cfg.2) A B C l st.head
    hl hline hE1 hE2]
  refine ⟨rfl, ?_⟩
  intro j hj
  unfold lineAt
  rw [List.getD_eq_getElem?_getD, List.getD_eq_getElem?_getD]
  rw [List.getElem?_set_ne (fun he => hj he.symm)]

/-- Witness for the amended C5: two `%% … %%` pairs on two lines, cursor
inside the second pair: only the second pair is removed, line 0 keeps its
markers. -/
theorem toggleComment_cursor_pair_removal_witness :
    (toggleComment ("%%".toList, "%%".toList) false
        ⟨["%% aaa %%".toList, "%% bbb %%".toList], ⟨1, 4⟩, ⟨1, 4⟩⟩).lines =
      ["%% aaa %%".toList, "%% bbb %%".toList].set 1
        (("" : String).toList ++ "bbb".toList ++ ("" : String).toList) ∧
      ∀ j, j ≠ 1 → lineAt (toggleComment ("%%".toList, "%%".toList) false
        ⟨["%% aaa %%".toList, "%% bbb %%".toList], ⟨1, 4⟩, ⟨1, 4⟩⟩).lines j =
        lineAt ["%% aaa %%".toList, "%% bbb %%".toList] j :=
  toggleComment_cursor_pair_removal ("%%".toList, "%%".toList) false
    ⟨["%% aaa %%".toList, "%% bbb %%".toList], ⟨1, 4⟩, ⟨1, 4⟩⟩ 1
    ("" : String).toList "bbb".toList ("" : String).toList
    rfl (by decide) (by decide) (by decide) (by decide) (by decide)
    (by decide) (by decide) (by decide)

/-! ## Cursor bounds after a toggle -/

theorem firstMatch_le_length {pat s : Str} {i : Nat}
    (h : firstMatch pat s = some i) : i ≤ s.length := by
  induction s generalizing i with
  | nil =>
    unfold firstMatch at h
    split at h
    · cases h
      exact Nat.le_refl 0
    · cases h
  | cons a rest ih =>
    unfold firstMatch at h
    split at h
    · cases h
      exact Nat.zero_le _
    · rcases Option.map_eq_some'.mp h with ⟨j, hj, hji⟩
      subst hji
      have := ih hj
      simp only [List.length_cons]
      omega

theorem replaceRange_ne_nil (lines : List Str) (f t : Pos) (s : Str) :
    replaceRange lines f t s ≠ [] := by
  unfold replaceRange
  intro h
  rcases List.append_eq_nil.mp h with ⟨h1, h2⟩
  rcases List.append_eq_nil.mp h1 with ⟨h3, h4⟩
  exact splitOnNl_ne_nil _ h4

theorem posMin_line_lt {lines : List Str} {a h : Pos}
    (ha : validPos lines a) (hh : validPos lines h) :
    (posMin a h).line < lines.length := by
  unfold posMin
  split
  · exact ha.1
  · exact hh.1

set_option maxHeartbeats 1000000 in
/-- Every exit of the removal path has both selection ends in bounds. -/
theorem removePath_valid (st : EditorState) (ms me : Str) (f csp cep : Pos)
    (hwf : wfState st) :
    validPos (removePath st ms me f csp cep).lines
        (removePath st ms me f csp cep).anchor ∧
      validPos (removePath st ms me f csp cep).lines
        (removePath st ms me f csp cep).head := by
  obtain ⟨hne, hnl, hva, hvh⟩ := hwf
  unfold removePath
  dsimp only
  by_cases hL : csp.line = cep.line
  · rw [if_pos hL]
    repeat' split
    all_goals first
      | exact ⟨hva, hvh⟩
      | exact ⟨clampCursorPos_valid (set_ne_nil (set_ne_nil hne _ _) _ _) _,
          clampCursorPos_valid (set_ne_nil (set_ne_nil hne _ _) _ _) _⟩
  · rw [if_neg hL]
    exact ⟨clampCursorPos_valid (set_ne_nil (set_ne_nil hne _ _) _ _) _,
      clampCursorPos_valid (set_ne_nil (set_ne_nil hne _ _) _ _) _⟩

theorem jsSlice_zero_length (s : Str) (b : Int) :
    (jsSlice s 0 b).length = jsSliceIdx s.length b := by
  unfold jsSlice
  rw [show jsSliceIdx s.length 0 = 0 by
    unfold jsSliceIdx
    simp]
  rw [List.drop_zero, List.length_take]
  unfold jsSliceIdx
  omega

theorem jsIndexOf_toNat_le_sliceIdx (s pat : Str) :
    (jsIndexOf s pat).toNat ≤ jsSliceIdx s.length (jsIndexOf s pat) := by
  unfold jsIndexOf
  cases h : firstMatch pat s with
  | none => simp
  | some i =>
    have hle : i ≤ s.length := firstMatch_le_length h
    unfold jsSliceIdx
    simp only [Int.toNat_natCast]
    rw [if_neg (by omega)]
    simp only [Int.toNat_natCast]
    omega

set_option maxHeartbeats 1000000 in
/-- Every exit of the `removalInside` branch has both selection ends in
bounds. -/
theorem removalReturn_valid (st : EditorState) (rc : RemState) (selB : Bool)
    (f : Pos) (hwf : wfState st) (hf : f.line < st.lines.length) :
    validPos (removalReturn st rc selB f).lines
        (removalReturn st rc selB f).anchor ∧
      validPos (removalReturn st rc selB f).lines
        (removalReturn st rc selB f).head := by
  obtain ⟨hne, hnl, hva, hvh⟩ := hwf
  have hkey : ∀ endIdx : Int,
      (jsIndexOf (lineAt st.lines f.line) rc.rS).toNat ≤
        (jsSlice (lineAt st.lines f.line) 0
            (jsIndexOf (lineAt st.lines f.line) rc.rS) ++
          jsSliceFrom (lineAt st.lines f.line)
            (endIdx + rc.rE.length)).length := by
    intro endIdx
    rw [List.length_append, jsSlice_zero_length]
    have := jsIndexOf_toNat_le_sliceIdx (lineAt st.lines f.line) rc.rS
    omega
  unfold removalReturn
  dsimp only
  repeat' split
  all_goals first
    | exact ⟨hva, hvh⟩
    | refine ⟨⟨?_, ?_⟩, ?_, ?_⟩ <;>
      · first
        | · rw [List.length_set]
            exact hf
        | · rw [lineAt_set_self hf]
            exact hkey _

set_option maxHeartbeats 2000000 in
/-- Every exit of the strip/insert tail has both selection ends in
bounds: every branch replaces a range (so the line list stays non-empty)
and clamps the cursor into the new document. -/
theorem stripOrInsert_valid (st : EditorState) (ms me : Str)
    (selB useWord : Bool) (wb : Option (Nat × Nat)) (line text : Str)
    (f t c : Pos) :
    validPos (stripOrInsert st ms me selB useWord wb line text f t c).lines
        (stripOrInsert st ms me selB useWord wb line text f t c).anchor ∧
      validPos (stripOrInsert st ms me selB useWord wb line text f t c).lines
        (stripOrInsert st ms me selB useWord wb line text f t c).head := by
  unfold stripOrInsert
  dsimp only
  repeat' split
  all_goals
    exact ⟨clampCursorPos_valid (replaceRange_ne_nil _ _ _ _) _,
      clampCursorPos_valid (replaceRange_ne_nil _ _ _ _) _⟩

theorem resolveTargetT_line_lt {n : Nat} (sel : Str) (selB useWord : Bool)
    (wb : Option (Nat × Nat)) (line : Str) (f t c : Pos)
    (hf : f.line < n) (hc : c.line < n) :
    (resolveTargetT sel selB useWord wb line f t c).2.1.line < n := by
  unfold resolveTargetT
  repeat' split
  all_goals first | exact hf | exact hc

set_option maxHeartbeats 1000000 in
/-- Every exit of the post-detection stage has both selection ends in
bounds. -/
theorem afterDetect_valid (st : EditorState) (ms me sel : Str)
    (selB wo : Bool) (f t c : Pos) (hwf : wfState st)
    (hf : f.line < st.lines.length) (hc : c.line < st.lines.length) :
    validPos (afterDetect st ms me sel selB wo f t c).lines
        (afterDetect st ms me sel selB wo f t c).anchor ∧
      validPos (afterDetect st ms me sel selB wo f t c).lines
        (afterDetect st ms me sel selB wo f t c).head := by
  unfold afterDetect
  dsimp only
  split
  · exact removalReturn_valid st _ selB _ hwf
      (resolveTargetT_line_lt sel selB _ _ _ f t c hf hc)
  · exact stripOrInsert_valid st ms me selB _ _ _ _ _ _ _

set_option maxHeartbeats 1000000 in
/-- CLAIM C8 — for every well-formed input state and marker set, after
`toggleComment` both ends of the reported cursor/selection satisfy
`0 ≤ line < lineCount` and `0 ≤ ch ≤ length(line[line])` in the resulting
document: every exit either returns the state unchanged, or clamps the
cursor into the produced document, or (in the `removalInside` deletion)
places it at an index inside the shortened line. -/
theorem toggleComment_cursor_in_bounds (cfg : Str × Str) (wo : Bool)
    (st : EditorState) (hwf : wfState st) :
    validPos (toggleComment cfg wo st).lines
        (toggleComment cfg wo st).anchor ∧
      validPos (toggleComment cfg wo st).lines
        (toggleComment cfg wo st).head := by
  obtain ⟨hne, hnl, hva, hvh⟩ := hwf
  have hfl : (posMin st.anchor st.head).line < st.lines.length :=
    posMin_line_lt hva hvh
  unfold toggleComment
  dsimp only
  repeat' split
  all_goals first
    | exact ⟨hva, hvh⟩
    | exact removePath_valid st _ _ _ _ _ ⟨hne, hnl, hva, hvh⟩
    | exact afterDetect_valid st _ _ _ _ wo _ _ _ ⟨hne, hnl, hva, hvh⟩
        hfl hvh.1

/-- Witness for C8: a configured toggle on a one-line document leaves the
cursor inside the resulting document's bounds. -/
theorem toggleComment_cursor_in_bounds_witness :
    validPos (toggleComment ("%%".toList, "%%".toList) false
        ⟨["abc".toList], ⟨0, 0⟩, ⟨0, 0⟩⟩).lines
      (toggleComment ("%%".toList, "%%".toList) false
        ⟨["abc".toList], ⟨0, 0⟩, ⟨0, 0⟩⟩).anchor ∧
    validPos (toggleComment ("%%".toList, "%%".toList) false
        ⟨["abc".toList], ⟨0, 0⟩, ⟨0, 0⟩⟩).lines
      (toggleComment ("%%".toList, "%%".toList) false
        ⟨["abc".toList], ⟨0, 0⟩, ⟨0, 0⟩⟩).head :=
  toggleComment_cursor_in_bounds ("%%".toList, "%%".toList) false
    ⟨["abc".toList], ⟨0, 0⟩, ⟨0, 0⟩⟩
    ⟨by decide, by decide, ⟨by decide, by decide⟩, ⟨by decide, by decide⟩⟩

end CustomComment
